import Mathlib

/-!
# Verification of the pops synchronization / reconciliation engine

Shallow embedding of the reconciliation, field-mapping, frontmatter-codec and
validation logic of the repository.  JavaScript strings are modelled as Lean
`String`s (with the character list `String.data` used for the operations the
source performs: `includes`, `endsWith`, regex replacement by character class,
etc.).  Documents are modelled as their lists of lines, mirroring the source,
whose first step is always `content.split('\n')` and whose last step is
`join('\n')`.  The filesystem mutated by the directory reconciler is modelled
as explicit data (lists of files with their directory paths), and the
asynchronous `fs` calls become pure functions over that data.
-/

/-! ## Generic JavaScript string operations -/

/-- The character class `\s` of JavaScript regular expressions, restricted to
the ASCII whitespace characters that can occur in the inputs modelled here. -/
def jsWS (c : Char) : Bool :=
  c = ' ' || c = '\t' || c = '\n' || c = '\r' || c = '\x0b' || c = '\x0c'

/-- `hay.includes(needle)` on character lists: some contiguous run of `hay`
equals `needle`. -/
def hasSubstr (hay needle : List Char) : Bool :=
  if needle.isPrefixOf hay then true
  else
    match hay with
    | [] => false
    | _ :: t => hasSubstr t needle

/-- JavaScript `String.prototype.includes`. -/
def jsIncludes (s sub : String) : Bool :=
  hasSubstr s.data sub.data

/-- JavaScript `String.prototype.endsWith`. -/
def jsEndsWith (s suffix : String) : Bool :=
  suffix.data.isSuffixOf s.data

/-- JavaScript `String.prototype.startsWith`. -/
def jsStartsWith (s pre : String) : Bool :=
  pre.data.isPrefixOf s.data

/-- JavaScript `String.prototype.trim` (both ends, ASCII whitespace). -/
def trimChars (l : List Char) : List Char :=
  ((l.dropWhile jsWS).reverse.dropWhile jsWS).reverse

/-! ## Slug normalizer

`MarkdownProcessor.generateEpicDirectoryName` / `determineCorrectEpicDirectory`
(markdown-processor.ts) and `IssueCreator.generateEpicFolderName`
(issue-update.ts) each lower-case the summary, delete every character outside
`[a-z0-9\s-]`, and replace every whitespace run by a single hyphen; the
processor then collapses hyphen runs and strips a leading/trailing hyphen,
while the creator instead truncates to 50 characters. -/

/-- A character kept by `replace(/[^a-z0-9\s-]/g, '')` (applied after
`toLowerCase`). -/
def keepSlugChar (c : Char) : Bool :=
  ('a' ≤ c && c ≤ 'z') || ('0' ≤ c && c ≤ '9') || jsWS c || c = '-'

/-- Replacement of every maximal run of characters satisfying `p` by the
single character `rep`; the flag records whether the previous character was
inside such a run. -/
def collapseRunsAux (p : Char → Bool) (rep : Char) : Bool → List Char → List Char
  | _, [] => []
  | inRun, c :: t =>
    if p c then
      if inRun then collapseRunsAux p rep true t
      else rep :: collapseRunsAux p rep true t
    else c :: collapseRunsAux p rep false t

/-- `replace(/\s+/g, '-')`: every maximal run of whitespace becomes one
hyphen. -/
def collapseWS (l : List Char) : List Char :=
  collapseRunsAux jsWS '-' false l

/-- `replace` of every hyphen run by `'-'`: every maximal run of hyphens
becomes one hyphen. -/
def collapseHyphens (l : List Char) : List Char :=
  collapseRunsAux (· = '-') '-' false l

/-- `replace` of a leading or trailing hyphen by nothing: removes one leading and one trailing hyphen. -/
def stripEdgeHyphens (l : List Char) : List Char :=
  let l₁ := if l.head? = some '-' then l.tail else l
  if l₁.getLast? = some '-' then l₁.dropLast else l₁

/-- The transformation both directory-name computations share: lower-case,
delete characters outside `[a-z0-9\s-]`, replace whitespace runs by one
hyphen. -/
def cleanSummaryChars (s : String) : List Char :=
  collapseWS ((s.data.map Char.toLower).filter keepSlugChar)

/-- `MarkdownProcessor.generateEpicDirectoryName` (markdown-processor.ts,
lines 118-127): shared cleanup, then collapse hyphen runs and strip edge
hyphens, prefixed with `epic-`. -/
def generateEpicDirectoryName (summary : String) : String :=
  "epic-" ++ ⟨stripEdgeHyphens (collapseHyphens (cleanSummaryChars summary))⟩

/-- `IssueCreator.generateEpicFolderName` (issue-update.ts, lines 1450-1459):
shared cleanup, then `substring(0, 50)`, prefixed with `epic-`.  The issue key
argument is unused in the source (`_issueKey`). -/
def generateEpicFolderName (_issueKey : String) (summary : String) : String :=
  "epic-" ++ ⟨(cleanSummaryChars summary).take 50⟩

/-- A remote issue as the reconciler reads it from a raw snapshot
(`IssueRawData`): its key, `fields.summary`, the names of
`fields.components`, and `fields.issuetype.name`. -/
structure Issue where
  key : String
  summary : Option String
  components : List String
  issuetype : Option String
deriving DecidableEq, Repr

/-- `MarkdownProcessor.determineCorrectComponent` (markdown-processor.ts,
lines 528-538): the first component name, falling back to `unassigned`. -/
def determineCorrectComponent (epic : Issue) : String :=
  match epic.components with
  | c :: _ => c
  | [] => "unassigned"

/-- `MarkdownProcessor.determineCorrectEpicDirectory` (markdown-processor.ts,
lines 540-553): slug of `fields.summary || epic.key` with the same cleanup
pipeline as `generateEpicDirectoryName`. -/
def determineCorrectEpicDirectory (epic : Issue) : String :=
  let epicName : String :=
    match epic.summary with
    | some s => if s = "" then epic.key else s
    | none => epic.key
  "epic-" ++ ⟨stripEdgeHyphens (collapseHyphens (cleanSummaryChars epicName))⟩

/-! ## Claim C10: agreement of the two epic-directory-name computations -/

/-- No two adjacent hyphens occur in the list. -/
def noHyphenRun : List Char → Bool
  | c1 :: c2 :: t => !(c1 = '-' && c2 = '-') && noHyphenRun (c2 :: t)
  | _ => true

theorem collapseRunsAux_hyphen_eq_self (l : List Char) (h : noHyphenRun l = true) :
    collapseRunsAux (· = '-') '-' false l = l
    ∧ (l.head? ≠ some '-' → collapseRunsAux (· = '-') '-' true l = l) := by
  induction l with
  | nil => exact ⟨rfl, fun _ => rfl⟩
  | cons c t ih =>
    have ht : noHyphenRun t = true := by
      cases t with
      | nil => rfl
      | cons c2 t2 => simp [noHyphenRun] at h; exact h.2
    by_cases hc : c = '-'
    · subst hc
      have hhd : t.head? ≠ some '-' := by
        cases t with
        | nil => simp
        | cons c2 t2 =>
          simp only [noHyphenRun, Bool.and_eq_true, Bool.not_eq_true'] at h
          simpa using fun he => by simp [he] at h
      constructor
      · simpa [collapseRunsAux] using (ih ht).2 hhd
      · intro hcontra; simp at hcontra
    · refine ⟨?_, fun _ => ?_⟩ <;> simp [collapseRunsAux, hc, (ih ht).1]

theorem collapseHyphens_eq_self (l : List Char) (h : noHyphenRun l = true) :
    collapseHyphens l = l :=
  (collapseRunsAux_hyphen_eq_self l h).1

theorem stripEdgeHyphens_eq_self (l : List Char)
    (h1 : l.head? ≠ some '-') (h2 : l.getLast? ≠ some '-') :
    stripEdgeHyphens l = l := by
  unfold stripEdgeHyphens
  simp only [if_neg h1, if_neg h2]

/-- C10 counterexample: on the summary `a--b` the reconciler's slug (which
collapses hyphen runs) differs from the interactive creator's slug (which
keeps them), so the two directory-name computations disagree. -/
theorem epic_folder_name_mismatch :
    determineCorrectEpicDirectory ⟨"POP-1", some "a--b", ["idp-infra"], some "Epic"⟩ =
      "epic-a-b"
    ∧ generateEpicDirectoryName "a--b" = "epic-a-b"
    ∧ generateEpicFolderName "POP-1" "a--b" = "epic-a--b"
    ∧ generateEpicDirectoryName "a--b" ≠ generateEpicFolderName "POP-1" "a--b" := by
  refine ⟨by decide, by decide, by decide, by decide⟩

/-- C10 amended: the two epic-directory-name computations agree on every
summary whose common cleaned form (lower-cased, restricted to
`[a-z0-9\s-]`, whitespace runs hyphenated) has no adjacent hyphens, neither
starts nor ends with a hyphen, and is at most 50 characters long; and the two
reconciler-side computations always agree on a non-empty summary. -/
theorem epic_folder_names_agree_when_clean (key summary : String)
    (comps : List String) (it : Option String)
    (hne : summary ≠ "")
    (hrun : noHyphenRun (cleanSummaryChars summary) = true)
    (hhead : (cleanSummaryChars summary).head? ≠ some '-')
    (hlast : (cleanSummaryChars summary).getLast? ≠ some '-')
    (hlen : (cleanSummaryChars summary).length ≤ 50) :
    determineCorrectEpicDirectory ⟨key, some summary, comps, it⟩ =
      generateEpicFolderName key summary
    ∧ generateEpicDirectoryName summary = generateEpicFolderName key summary := by
  have h1 : stripEdgeHyphens (collapseHyphens (cleanSummaryChars summary)) =
      cleanSummaryChars summary := by
    rw [collapseHyphens_eq_self _ hrun, stripEdgeHyphens_eq_self _ hhead hlast]
  have h2 : (cleanSummaryChars summary).take 50 = cleanSummaryChars summary :=
    List.take_of_length_le hlen
  constructor
  · unfold determineCorrectEpicDirectory generateEpicFolderName
    simp only [hne, if_neg, ite_false, h1, h2]
  · unfold generateEpicDirectoryName generateEpicFolderName
    rw [h1, h2]

/-- Witness for `epic_folder_names_agree_when_clean` at the summary
`My Epic`. -/
theorem epic_folder_names_agree_when_clean_witness :
    determineCorrectEpicDirectory ⟨"POP-1", some "My Epic", ["idp-infra"], some "Epic"⟩ =
      generateEpicFolderName "POP-1" "My Epic"
    ∧ generateEpicDirectoryName "My Epic" = generateEpicFolderName "POP-1" "My Epic" :=
  epic_folder_names_agree_when_clean "POP-1" "My Epic" ["idp-infra"] (some "Epic")
    (by decide) (by decide) (by decide) (by decide) (by decide)

/-! ## Directory reconciler: misplaced-file cleanup

`MarkdownProcessor.cleanupMisplacedFiles` / `searchAndRemoveMisplacedFiles` /
`isOrphanedEpicFile` (markdown-processor.ts, lines 696-798).  The walk over
the increment tree visits every file below the search root; its decision for
a file depends only on the file's name and containing directory, so the tree
is modelled as a flat list of files tagged with their directory path
(segments relative to the increment root). -/

/-- A file in the mirrored planning tree. -/
structure MdFile where
  dir : List String
  name : String
deriving DecidableEq, Repr

/-- `MarkdownProcessor.isOrphanedEpicFile` (lines 795-798): the file name
contains the epic key and ends in `.md`. -/
def isOrphanedEpicFile (fileName epicKey : String) : Bool :=
  jsIncludes fileName epicKey && jsEndsWith fileName ".md"

/-- The per-file decision of `searchAndRemoveMisplacedFiles` (lines 745-793):
only `.md` files are considered; a file whose name is valid but whose path is
not the canonical one is removed, otherwise the `isOrphanedEpicFile` test
decides. -/
def shouldRemoveMisplacedFile (validFileNames : List String)
    (correctPath : List String) (epicKey : String) (f : MdFile) : Bool :=
  if jsEndsWith f.name ".md" = true then
    if validFileNames.contains f.name = true ∧ f.dir ≠ correctPath then true
    else isOrphanedEpicFile f.name epicKey
  else false

/-- `MarkdownProcessor.searchAndRemoveMisplacedFiles`: the list of removed
files (`removedFilePaths`; `removedFiles` is its length). -/
def searchAndRemoveMisplacedFiles (tree : List MdFile) (validFileNames : List String)
    (correctPath : List String) (epicKey : String) : List MdFile :=
  tree.filter (shouldRemoveMisplacedFile validFileNames correctPath epicKey)

/-- `MarkdownProcessor.cleanupMisplacedFiles` (lines 696-743): builds the
valid-file-name set of the epic group and searches the whole increment tree. -/
def cleanupMisplacedFiles (epic : Issue) (validStories validTasks validSpikes : List Issue)
    (correctComponent correctEpicDir : String) (tree : List MdFile) : List MdFile :=
  let validFileNames :=
    ("epic-" ++ epic.key ++ ".md") ::
      (validStories.map (fun s => "story-" ++ s.key ++ ".md") ++
       validTasks.map (fun t => "task-" ++ t.key ++ ".md") ++
       validSpikes.map (fun sp => "spike-" ++ sp.key ++ ".md"))
  searchAndRemoveMisplacedFiles tree validFileNames [correctComponent, correctEpicDir] epic.key

/-! ## Directory reconciler: orphaned-directory cleanup

`MarkdownProcessor.cleanupOrphanedEpicDirectories`, `checkForValidEpicFiles`
and `cleanupEmptyComponentDirectory` (markdown-processor.ts, lines 814-942).
The increment root is modelled as a list of component directories, each
holding entries that are either epic-level directories (with their contained
file names) or plain files. -/

/-- An entry of a component directory. -/
inductive FsEntry where
  | dir (name : String) (files : List String)
  | file (name : String)
deriving DecidableEq, Repr

/-- The name of an entry. -/
def FsEntry.entryName : FsEntry → String
  | .dir n _ => n
  | .file n => n

/-- A component directory of the increment root. -/
structure ComponentDir where
  name : String
  entries : List FsEntry
deriving DecidableEq, Repr

/-- `[A-Z]`. -/
def isUpperChar (c : Char) : Bool := 'A' ≤ c && c ≤ 'Z'

/-- `\d`. -/
def isDigitChar (c : Char) : Bool := '0' ≤ c && c ≤ '9'

/-- Matches `[A-Z]+-\d+\.md` at the head of the list, returning the
`[A-Z]+-\d+` capture.  Greedy matching of the character classes is
deterministic here because backtracking into a maximal run can never satisfy
the following literal. -/
def matchKeyMd (l : List Char) : Option String :=
  let up := l.takeWhile isUpperChar
  if up.isEmpty then none
  else
    match l.drop up.length with
    | '-' :: rest =>
      let ds := rest.takeWhile isDigitChar
      if ds.isEmpty then none
      else if ['.', 'm', 'd'].isPrefixOf (rest.drop ds.length) then
        some ⟨up ++ '-' :: ds⟩
      else none
    | _ => none

/-- One attempt of the file-name pattern at the head of the list. -/
def tryMatchIssueFile (l : List Char) : Option String :=
  if ("epic-").data.isPrefixOf l then matchKeyMd (l.drop 5)
  else if ("story-").data.isPrefixOf l then matchKeyMd (l.drop 6)
  else if ("task-").data.isPrefixOf l then matchKeyMd (l.drop 5)
  else if ("spike-").data.isPrefixOf l then matchKeyMd (l.drop 6)
  else none

/-- The capture of the first (leftmost) match of the regular expression used
by `checkForValidEpicFiles` (line 900), scanning every start position. -/
def extractIssueKey : List Char → Option String
  | [] => none
  | c :: t =>
    match tryMatchIssueFile (c :: t) with
    | some k => some k
    | none => extractIssueKey t

/-- `MarkdownProcessor.checkForValidEpicFiles` (lines 889-913): some `.md`
file in the directory carries a key from the valid-key set. -/
def checkForValidEpicFiles (files : List String) (validEpicKeys : List String) : Bool :=
  files.any fun f =>
    jsEndsWith f ".md" &&
      (match extractIssueKey f.data with
       | some k => validEpicKeys.contains k
       | none => false)

/-- The per-entry decision of the epic-directory loop (lines 839-867): keep
files, keep directories not named `epic-…`, keep epic directories recorded in
the valid-directory set of the component, keep epic directories containing a
valid-key file, delete the rest. -/
def keepEpicEntry (validDirsForComp : List String) (validEpicKeys : List String) :
    FsEntry → Bool
  | .file _ => true
  | .dir n files =>
    if jsStartsWith n "epic-" = false then true
    else if validDirsForComp.contains n then true
    else checkForValidEpicFiles files validEpicKeys

/-- The filter of `cleanupEmptyComponentDirectory` (lines 918-942): entries
that are not dotfiles, not underscore-prefixed, and not README/CHANGELOG-like. -/
def meaningfulEntryName (n : String) : Bool :=
  !(jsStartsWith n ".") && !(jsStartsWith n "_") &&
    !(jsIncludes n "README") && !(jsIncludes n "CHANGELOG")

/-- The treatment of one component directory by
`cleanupOrphanedEpicDirectories` (lines 814-884): special directories are
skipped untouched; otherwise orphaned epic directories are removed and, if no
meaningful entry remains, the whole component directory is removed
(`cleanupEmptyComponentDirectory`).  `none` means the component directory was
deleted recursively. -/
def cleanupComponentDir (validEpicDirectories : List (String × List String))
    (validEpicKeys : List String) (c : ComponentDir) : Option ComponentDir :=
  if jsStartsWith c.name "_" || jsStartsWith c.name "." then some c
  else
    let validForComp :=
      match validEpicDirectories.lookup c.name with
      | some l => l
      | none => []
    let entries' := c.entries.filter (keepEpicEntry validForComp validEpicKeys)
    if (entries'.filter (fun e => meaningfulEntryName e.entryName)).isEmpty then none
    else some ⟨c.name, entries'⟩

/-- `MarkdownProcessor.cleanupOrphanedEpicDirectories` over the whole
increment root: the surviving component directories with their surviving
entries. -/
def cleanupOrphanedEpicDirectories (validEpicDirectories : List (String × List String))
    (validEpicKeys : List String) (comps : List ComponentDir) : List ComponentDir :=
  comps.filterMap (cleanupComponentDir validEpicDirectories validEpicKeys)

/-! ## Claim C1: idempotence of reconciliation -/

/-- The epic of a converged one-epic snapshot: `EPIC-1`, summary `Alpha`,
component `idp-infra`, no children.  After a first run the mirror holds
exactly the canonical file `idp-infra/epic-alpha/epic-EPIC-1.md`. -/
def convergedEpic : Issue := ⟨"EPIC-1", some "Alpha", ["idp-infra"], some "Epic"⟩

/-- The converged mirror tree after the first run. -/
def convergedTree : List MdFile := [⟨["idp-infra", "epic-alpha"], "epic-EPIC-1.md"⟩]

/-- C1: a second reconciliation run over the same snapshot set is *not*
empty: its misplaced-file cleanup (which runs before the canonical files are
rewritten) deletes the epic's own canonical file, because
`isOrphanedEpicFile` matches every `.md` file whose name contains the epic
key — including the valid file at its correct location — so the second
Reconciliation Report records one deletion instead of zero. -/
theorem second_run_cleanup_deletes_canonical_epic_file :
    cleanupMisplacedFiles convergedEpic [] [] [] "idp-infra" "epic-alpha" convergedTree =
      [⟨["idp-infra", "epic-alpha"], "epic-EPIC-1.md"⟩]
    ∧ cleanupMisplacedFiles convergedEpic [] [] [] "idp-infra" "epic-alpha" convergedTree ≠ [] := by
  refine ⟨by decide, by decide⟩

/-! ## Claim C3: the orphan-cleanup scenario -/

/-- The epic of the spec's orphan-cleanup scenario (valid keys
`{EPIC-1, STORY-2}`). -/
def orphanScenarioEpic : Issue := ⟨"EPIC-1", some "Alpha", ["idp-infra"], some "Epic"⟩

/-- The validated story of the scenario. -/
def orphanScenarioStory : Issue := ⟨"STORY-2", some "Story two", [], some "Story"⟩

/-- The canonical on-disk directory of the scenario: the two valid files plus
the stray `story-STORY-9.md`. -/
def orphanScenarioTree : List MdFile :=
  [⟨["idp-infra", "epic-alpha"], "epic-EPIC-1.md"⟩,
   ⟨["idp-infra", "epic-alpha"], "story-STORY-2.md"⟩,
   ⟨["idp-infra", "epic-alpha"], "story-STORY-9.md"⟩]

/-- The files removed by the scenario run's misplaced-file cleanup. -/
def orphanScenarioRemoved : List MdFile :=
  cleanupMisplacedFiles orphanScenarioEpic [orphanScenarioStory] [] []
    "idp-infra" "epic-alpha" orphanScenarioTree

/-- C3 counterexample: the reconciliation run does not delete
`story-STORY-9.md` — its name is neither in the valid-file-name set nor does
it contain the epic key `EPIC-1`, so no cleanup rule matches it. -/
theorem orphan_scenario_stray_story_not_deleted :
    MdFile.mk ["idp-infra", "epic-alpha"] "story-STORY-9.md" ∉ orphanScenarioRemoved
    ∧ orphanScenarioRemoved ≠
        [⟨["idp-infra", "epic-alpha"], "story-STORY-9.md"⟩] := by
  refine ⟨by decide, by decide⟩

/-- C3 amended: in the scenario, the misplaced-file cleanup deletes exactly
the epic's own canonical file `epic-EPIC-1.md` (which the run immediately
regenerates); `story-STORY-2.md` and the stray `story-STORY-9.md` are both
retained, and the subsequent orphaned-directory pass deletes nothing because
the directory is in the valid-directory set. -/
theorem orphan_scenario_run_removals :
    orphanScenarioRemoved = [⟨["idp-infra", "epic-alpha"], "epic-EPIC-1.md"⟩]
    ∧ cleanupOrphanedEpicDirectories [("idp-infra", ["epic-alpha"])] ["EPIC-1"]
        [⟨"idp-infra", [FsEntry.dir "epic-alpha"
          ["epic-EPIC-1.md", "story-STORY-2.md", "story-STORY-9.md"]]⟩] =
      [⟨"idp-infra", [FsEntry.dir "epic-alpha"
          ["epic-EPIC-1.md", "story-STORY-2.md", "story-STORY-9.md"]]⟩] := by
  refine ⟨by decide, by decide⟩

/-! ## Claim C2: epic directories containing valid-key files -/

/-- C2 counterexample: the epic directory `epic-README` contains
`epic-POP-1.md` whose key `POP-1` is in the valid-key set, and the
per-directory pass indeed keeps it; but `cleanupEmptyComponentDirectory`
counts every entry whose name contains `README` as non-meaningful, finds the
component empty, and deletes the component directory — and with it the epic
directory and its valid-key file — recursively. -/
theorem orphan_dir_cleanup_deletes_dir_with_valid_key_file :
    checkForValidEpicFiles ["epic-POP-1.md"] ["POP-1"] = true
    ∧ cleanupOrphanedEpicDirectories [] ["POP-1"]
        [⟨"idp-infra", [FsEntry.dir "epic-README" ["epic-POP-1.md"]]⟩] = [] := by
  refine ⟨by decide, by decide⟩

theorem startsWith_epic_meaningful (s : String)
    (h : jsStartsWith s "epic-" = true)
    (hr : jsIncludes s "README" = false) (hc : jsIncludes s "CHANGELOG" = false) :
    meaningfulEntryName s = true := by
  unfold jsStartsWith at h
  obtain ⟨t, ht⟩ := List.isPrefixOf_iff_prefix.1 h
  have hdata : s.data = 'e' :: 'p' :: 'i' :: 'c' :: '-' :: t := by
    rw [← ht]; rfl
  have h1 : jsStartsWith s "." = false := by
    unfold jsStartsWith
    rw [Bool.eq_false_iff, Ne, List.isPrefixOf_iff_prefix, hdata]
    have hdot : (".").data = ['.'] := rfl
    rw [hdot]
    intro hp
    exact absurd (List.cons_prefix_cons.1 hp).1 (by decide)
  have h2 : jsStartsWith s "_" = false := by
    unfold jsStartsWith
    rw [Bool.eq_false_iff, Ne, List.isPrefixOf_iff_prefix, hdata]
    have hus : ("_").data = ['_'] := rfl
    rw [hus]
    intro hp
    exact absurd (List.cons_prefix_cons.1 hp).1 (by decide)
  unfold meaningfulEntryName
  rw [h1, h2, hr, hc]
  rfl

/-- C2 amended: neither cleanup pass ever deletes an epic directory that
contains a file with a valid embedded key, *provided* the directory's name
does not contain `README` or `CHANGELOG` (names the empty-component check
treats as non-meaningful): the directory survives with its files, inside a
surviving component directory. -/
theorem epic_dir_with_valid_file_survives
    (vd : List (String × List String)) (vk : List String)
    (comps : List ComponentDir) (c : ComponentDir) (dn : String) (dfiles : List String)
    (f k : String)
    (hc : c ∈ comps)
    (hd : FsEntry.dir dn dfiles ∈ c.entries)
    (hpre : jsStartsWith dn "epic-" = true)
    (hreadme : jsIncludes dn "README" = false)
    (hchlog : jsIncludes dn "CHANGELOG" = false)
    (hf : f ∈ dfiles)
    (hmd : jsEndsWith f ".md" = true)
    (hkey : extractIssueKey f.data = some k)
    (hvalid : vk.contains k = true) :
    ∃ c' ∈ cleanupOrphanedEpicDirectories vd vk comps,
      c'.name = c.name ∧ FsEntry.dir dn dfiles ∈ c'.entries := by
  have hcheck : checkForValidEpicFiles dfiles vk = true := by
    unfold checkForValidEpicFiles
    rw [List.any_eq_true]
    refine ⟨f, hf, ?_⟩
    rw [hmd, hkey]
    simpa using hvalid
  have hkeep : ∀ vdc : List String, keepEpicEntry vdc vk (FsEntry.dir dn dfiles) = true := by
    intro vdc
    show (if jsStartsWith dn "epic-" = false then true
          else if vdc.contains dn = true then true
          else checkForValidEpicFiles dfiles vk) = true
    rw [hpre]
    split <;> simp [hcheck]
  unfold cleanupOrphanedEpicDirectories
  by_cases hskip : (jsStartsWith c.name "_" || jsStartsWith c.name ".") = true
  · refine ⟨c, ?_, rfl, hd⟩
    rw [List.mem_filterMap]
    refine ⟨c, hc, ?_⟩
    unfold cleanupComponentDir
    rw [if_pos hskip]
  · have hmem : FsEntry.dir dn dfiles ∈
        c.entries.filter (keepEpicEntry
          (match vd.lookup c.name with | some l => l | none => []) vk) :=
      List.mem_filter.2 ⟨hd, hkeep _⟩
    have hmean : meaningfulEntryName (FsEntry.dir dn dfiles).entryName = true :=
      startsWith_epic_meaningful dn hpre hreadme hchlog
    have hnonempty : FsEntry.dir dn dfiles ∈
        (c.entries.filter (keepEpicEntry
          (match vd.lookup c.name with | some l => l | none => []) vk)).filter
          (fun e => meaningfulEntryName e.entryName) :=
      List.mem_filter.2 ⟨hmem, hmean⟩
    have hne : ((c.entries.filter (keepEpicEntry
        (match vd.lookup c.name with | some l => l | none => []) vk)).filter
          (fun e => meaningfulEntryName e.entryName)).isEmpty = false := by
      rw [Bool.eq_false_iff, Ne, List.isEmpty_iff]
      intro hemp
      rw [hemp] at hnonempty
      exact absurd hnonempty (List.not_mem_nil _)
    refine ⟨⟨c.name, c.entries.filter (keepEpicEntry
        (match vd.lookup c.name with | some l => l | none => []) vk)⟩, ?_, rfl, hmem⟩
    rw [List.mem_filterMap]
    refine ⟨c, hc, ?_⟩
    unfold cleanupComponentDir
    rw [if_neg hskip]
    simp only [hne]
    rfl

/-- Witness for `epic_dir_with_valid_file_survives`: the directory
`epic-beta` is not in the valid-directory set of its component, but it holds
`story-POP-9.md` whose key `POP-9` is valid, so it survives the cleanup. -/
theorem epic_dir_with_valid_file_survives_witness :
    ∃ c' ∈ cleanupOrphanedEpicDirectories [("idp-infra", ["epic-alpha"])] ["POP-9"]
        [⟨"idp-infra", [FsEntry.dir "epic-beta" ["story-POP-9.md"]]⟩],
      c'.name = "idp-infra"
      ∧ FsEntry.dir "epic-beta" ["story-POP-9.md"] ∈ c'.entries :=
  epic_dir_with_valid_file_survives [("idp-infra", ["epic-alpha"])] ["POP-9"]
    [⟨"idp-infra", [FsEntry.dir "epic-beta" ["story-POP-9.md"]]⟩]
    ⟨"idp-infra", [FsEntry.dir "epic-beta" ["story-POP-9.md"]]⟩
    "epic-beta" ["story-POP-9.md"] "story-POP-9.md" "POP-9"
    (by decide) (by decide) (by decide) (by decide) (by decide) (by decide)
    (by decide) (by decide) (by decide)

/-! ## Field mapping engine: `SimpleMapper` (simple-mapper.ts)

Dynamic JavaScript values are modelled by a tagged union `JVal`; objects are
association lists in insertion order (JavaScript objects have unique keys, so
lookup is first-match). -/

/-- A JavaScript value as it flows through the mapping layer. -/
inductive JVal where
  | null
  | str (s : String)
  | num (n : Int)
  | arr (xs : List JVal)
  | obj (fields : List (String × JVal))
deriving Repr

/-- Property access `o[k]` on an object; `none` models `undefined` (also the
result of accessing a property on a non-object). -/
def jsLookup (fields : List (String × JVal)) (key : String) : Option JVal :=
  match fields with
  | [] => none
  | (k, v) :: t => if k = key then some v else jsLookup t key

/-- JavaScript truthiness of a `JVal`. -/
def jsTruthy : JVal → Bool
  | .null => false
  | .str s => s ≠ ""
  | .num n => n ≠ 0
  | .arr _ => true
  | .obj _ => true

/-- The read-only deny-list of `SimpleMapper.mapPropertiesToJira`
(simple-mapper.ts, line 124). -/
def readonlyFields : List String :=
  ["status", "assignee", "reporter", "created", "updated", "resolution"]

/-- `issueType !== 'Epic'` for the raw value of `properties.type`: the
comparison with the string literal is only true when the value is the string
`Epic`. -/
def isEpicType : Option JVal → Bool
  | some (JVal.str s) => s = "Epic"
  | _ => false

/-- The loop body of `SimpleMapper.mapPropertiesToJira` (lines 129-146) for
one mapping entry: emit `(apiPath, value)` unless the value is
`undefined`/`null`, the property is on the read-only deny-list, or the
property is `components` and `properties.type` is not the string `Epic`. -/
def mapPropertyEntry (properties : List (String × JVal)) (e : String × String) :
    Option (String × JVal) :=
  match jsLookup properties e.1 with
  | none => none
  | some JVal.null => none
  | some v =>
    if readonlyFields.contains e.1 then none
    else if e.1 = "components" ∧ isEpicType (jsLookup properties "type") = false then none
    else some (e.2, v)

/-- `SimpleMapper.mapPropertiesToJira` (lines 120-149). -/
def mapPropertiesToJira (properties : List (String × JVal))
    (mapping : List (String × String)) : List (String × JVal) :=
  mapping.filterMap (mapPropertyEntry properties)

/-- Set a property on an object, replacing in place or appending (JavaScript
assignment keeps insertion order). -/
def jobjSet (o : List (String × JVal)) (k : String) (v : JVal) : List (String × JVal) :=
  match o with
  | [] => [(k, v)]
  | (k', v') :: t => if k' = k then (k, v) :: t else (k', v') :: jobjSet t k v

/-- `obj.fields || {}` as an association list (a non-object value of
`fields` is replaced by a fresh object, which is what the subsequent
property assignments on it amount to). -/
def getFieldsObj (o : List (String × JVal)) : List (String × JVal) :=
  match jsLookup o "fields" with
  | some (JVal.obj f) => f
  | _ => []

/-- `SimpleMapper.handleCustomField` (lines 217-232). -/
def handleCustomField (o : List (String × JVal)) (path : String) (value : JVal) :
    List (String × JVal) :=
  match (path.splitOn ".").find? (fun p => jsStartsWith p "customfield_") with
  | none => o
  | some cf =>
    if jsIncludes path ".value" then
      jobjSet o "fields" (JVal.obj (jobjSet (getFieldsObj o) cf (JVal.obj [("value", value)])))
    else
      jobjSet o "fields" (JVal.obj (jobjSet (getFieldsObj o) cf value))

/-- `SimpleMapper.handleComponentsArray` (lines 238-250): wrap a scalar in a
one-element array, then map each string component to `{ name: component }`. -/
def handleComponentsArray (o : List (String × JVal)) (value : JVal) :
    List (String × JVal) :=
  let varr := match value with
    | JVal.arr xs => xs
    | v => [v]
  let comps := varr.map fun comp =>
    match comp with
    | JVal.str s => JVal.obj [("name", JVal.str s)]
    | other => other
  jobjSet o "fields" (JVal.obj (jobjSet (getFieldsObj o) "components" (JVal.arr comps)))

/-- `SimpleMapper.handleLabelsArray` (lines 256-263). -/
def handleLabelsArray (o : List (String × JVal)) (value : JVal) :
    List (String × JVal) :=
  let varr := match value with
    | JVal.arr xs => xs
    | v => [v]
  jobjSet o "fields" (JVal.obj (jobjSet (getFieldsObj o) "labels" (JVal.arr varr)))

/-- `SimpleMapper.handleIssueType` (lines 269-272). -/
def handleIssueType (o : List (String × JVal)) (value : JVal) :
    List (String × JVal) :=
  jobjSet o "fields" (JVal.obj (jobjSet (getFieldsObj o) "issuetype" (JVal.obj [("name", value)])))

/-- `SimpleMapper.handleStatus` (lines 278-281). -/
def handleStatus (o : List (String × JVal)) (value : JVal) :
    List (String × JVal) :=
  jobjSet o "fields" (JVal.obj (jobjSet (getFieldsObj o) "status" (JVal.obj [("name", value)])))

/-- Literal dotted-path nesting (default branch of `setNestedField`,
lines 196-208); a falsy or non-object intermediate is replaced by a fresh
object. -/
def defaultNest (o : List (String × JVal)) (parts : List String) (value : JVal) :
    List (String × JVal) :=
  match parts with
  | [] => o
  | [p] => jobjSet o p value
  | p :: rest =>
    let child := match jsLookup o p with
      | some (JVal.obj f) => f
      | _ => []
    jobjSet o p (JVal.obj (defaultNest child rest value))

/-- `SimpleMapper.setNestedField` (lines 169-209): dispatch on the path
text, in source order. -/
def setNestedField (o : List (String × JVal)) (path : String) (value : JVal) :
    List (String × JVal) :=
  if jsIncludes path "customfield_" then handleCustomField o path value
  else if jsIncludes path "components[]" then handleComponentsArray o value
  else if jsIncludes path "labels[]" then handleLabelsArray o value
  else if jsIncludes path "issuetype" then handleIssueType o value
  else if jsIncludes path "status" then handleStatus o value
  else defaultNest o (path.splitOn ".") value

/-- `SimpleMapper.convertToJiraFields` (lines 155-164): fold every mapped
entry into a nested object, then return `fields.fields || fields` (the
top-level wrapper stripped when present and truthy). -/
def convertToJiraFields (mappedFields : List (String × JVal)) : JVal :=
  let fields := mappedFields.foldl (fun o e => setNestedField o e.1 e.2) []
  match jsLookup fields "fields" with
  | some v => if jsTruthy v then v else JVal.obj fields
  | none => JVal.obj fields

/-! ## Claim C6: the array-mapping scenario -/

/-- The scenario's property bag: `{components: ["idp-infra", "cp-bm-mgmt"]}`. -/
def arrayScenarioProps : List (String × JVal) :=
  [("components", JVal.arr [JVal.str "idp-infra", JVal.str "cp-bm-mgmt"])]

/-- The scenario's mapping table: `{components: "fields.components[].name"}`. -/
def arrayScenarioMapping : List (String × String) :=
  [("components", "fields.components[].name")]

/-- The wire object the scenario expects:
`{components: [{name: "idp-infra"}, {name: "cp-bm-mgmt"}]}`. -/
def arrayScenarioExpected : JVal :=
  JVal.obj [("components", JVal.arr
    [JVal.obj [("name", JVal.str "idp-infra")], JVal.obj [("name", JVal.str "cp-bm-mgmt")]])]

/-- C6: on the scenario's literal property bag, which carries no `type`
property, `mapPropertiesToJira` skips the `components` entry (`undefined`
is not `'Epic'`), so flatten emits nothing and lowering yields the empty
wire object instead of the expected components array.  Adding
`type: "Epic"` to the bag produces exactly the expected object, which is
also what the repository's own `simple-mapper` unit test asserts for a bag
without a `type` property. -/
theorem array_mapping_scenario_yields_empty :
    mapPropertiesToJira arrayScenarioProps arrayScenarioMapping = []
    ∧ convertToJiraFields (mapPropertiesToJira arrayScenarioProps arrayScenarioMapping) =
        JVal.obj []
    ∧ JVal.obj [] ≠ arrayScenarioExpected
    ∧ convertToJiraFields (mapPropertiesToJira
        (("type", JVal.str "Epic") :: arrayScenarioProps) arrayScenarioMapping) =
        arrayScenarioExpected := by
  refine ⟨rfl, rfl, by simp [arrayScenarioExpected], rfl⟩

/-! ## Claim C7: read-only field exclusion -/

theorem mapPropertyEntry_readonly (props : List (String × JVal)) (e : String × String)
    (h : readonlyFields.contains e.1 = true) : mapPropertyEntry props e = none := by
  unfold mapPropertyEntry
  split
  · rfl
  · rfl
  · rw [if_pos h]

theorem mapPropertyEntry_some (props : List (String × JVal)) (e : String × String)
    (pv : String × JVal) (h : mapPropertyEntry props e = some pv) :
    readonlyFields.contains e.1 = false ∧ pv.1 = e.2 := by
  unfold mapPropertyEntry at h
  split at h
  · cases h
  · cases h
  · by_cases hro : readonlyFields.contains e.1 = true
    · rw [if_pos hro] at h; cases h
    · refine ⟨by simpa using hro, ?_⟩
      rw [if_neg hro] at h
      by_cases hcomp : e.1 = "components" ∧ isEpicType (jsLookup props "type") = false
      · rw [if_pos hcomp] at h; cases h
      · rw [if_neg hcomp] at h
        cases h; rfl

/-- C7: mapping entries whose property name is on the read-only deny-list
contribute nothing to the flattened output — the result over any mapping
table equals the result over the table with the denied entries removed, and
every emitted entry stems from a non-denied mapping entry. -/
theorem flatten_excludes_readonly_fields (props : List (String × JVal))
    (m : List (String × String)) :
    mapPropertiesToJira props m =
      mapPropertiesToJira props (m.filter (fun e => !(readonlyFields.contains e.1)))
    ∧ ∀ pv ∈ mapPropertiesToJira props m,
        ∃ e ∈ m, readonlyFields.contains e.1 = false ∧ pv.1 = e.2 := by
  constructor
  · unfold mapPropertiesToJira
    induction m with
    | nil => rfl
    | cons hd tl ih =>
      cases hro : readonlyFields.contains hd.1 with
      | true =>
        rw [List.filter_cons_of_neg (by rw [hro]; decide)]
        simp only [List.filterMap_cons, mapPropertyEntry_readonly props hd hro]
        exact ih
      | false =>
        rw [List.filter_cons_of_pos (by rw [hro]; decide)]
        cases hpe : mapPropertyEntry props hd <;>
          simp only [List.filterMap_cons, hpe] <;> rw [ih]
  · intro pv hpv
    unfold mapPropertiesToJira at hpv
    rw [List.mem_filterMap] at hpv
    obtain ⟨e, he, hfe⟩ := hpv
    exact ⟨e, he, mapPropertyEntry_some props e pv hfe⟩

/-- Witness for `flatten_excludes_readonly_fields`: the denied `status`
entry is dropped and the emitted `points` entry stems from the non-denied
mapping entry. -/
theorem flatten_excludes_readonly_fields_witness :
    ∃ e ∈ [("status", "fields.status.name"), ("points", "fields.customfield_10006")],
      readonlyFields.contains e.1 = false ∧
        ("fields.customfield_10006", JVal.num 5).1 = e.2 :=
  (flatten_excludes_readonly_fields
      [("status", JVal.str "To Do"), ("points", JVal.num 5)]
      [("status", "fields.status.name"), ("points", "fields.customfield_10006")]).2
    ("fields.customfield_10006", JVal.num 5)
    (by show ("fields.customfield_10006", JVal.num 5) ∈
          [(("fields.customfield_10006", JVal.num 5) : String × JVal)]
        exact List.mem_singleton_self _)

/-! ## Extraction: `MarkdownProcessor.extractValueFromPath` /
`extractPropertiesFromIssue` (markdown-processor.ts, lines 396-439)

A path is split on `.`; segments are walked through the nested record.  The
recursive call inside the array branch re-enters `extractValueFromPath`,
which first strips a leading `api.` segment from the joined remaining path
before re-splitting it; both are mirrored here on the segment lists (the
segments contain no dot, so joining and re-splitting is the identity). -/

/-- `path.replace(/^api\./, '')` on the split segments: drops a leading
`api` segment when at least one further segment follows (the regex requires
the dot). -/
def stripApi : List String → List String
  | "api" :: r2 :: r3 => r2 :: r3
  | l => l

/-- `part.includes('[]')`. -/
def hasArrayMarker (p : String) : Bool :=
  jsIncludes p "[]"

/-- `part.replace('[]', '')`: removes the first occurrence of `[]`. -/
def removeFirstBrackets : List Char → List Char
  | '[' :: ']' :: rest => rest
  | c :: rest => c :: removeFirstBrackets rest
  | [] => []

/-- Property access `current[part]`: `none` is `undefined` (accessing any
property of a non-object value, or a missing key). -/
def jlookup (v : JVal) (key : String) : Option JVal :=
  match v with
  | JVal.obj fields => jsLookup fields key
  | _ => none

/-- Tests whether an optional value is an array. -/
def isArrayVal : Option JVal → Bool
  | some (JVal.arr _) => true
  | _ => false

/-- Tests whether an optional value is `undefined` or `null`. -/
def isMissingOrNull : Option JVal → Bool
  | none => true
  | some JVal.null => true
  | _ => false

/-- The segment walk of `extractValueFromPath` (lines 411-439): an
array-marker segment maps the remaining path over the array elements
(returning `[]` when the field is absent or not an array, and the element
itself when no path remains); a plain segment descends, returning `null` on
`undefined`/`null`.  In the recursive call the source re-enters
`extractValueFromPath`, whose `api.`-strip is applied to the remaining
segments here. -/
def joinedPathEmpty (rest : List String) : Bool :=
  rest.isEmpty || rest = [""]

theorem stripApi_length_le (l : List String) : (stripApi l).length ≤ l.length := by
  unfold stripApi
  split
  · exact Nat.le_succ _
  · exact Nat.le_refl _

def extractParts : JVal → List String → JVal
  | cur, [] => cur
  | cur, p :: rest =>
    if hasArrayMarker p then
      match jlookup cur (String.mk (removeFirstBrackets p.data)) with
      | some (JVal.arr items) =>
        JVal.arr (items.map fun item =>
          if joinedPathEmpty rest then item
          else extractParts item (stripApi rest))
      | _ => JVal.arr []
    else
      match jlookup cur p with
      | none => JVal.null
      | some JVal.null => JVal.null
      | some v => extractParts v rest
termination_by _ parts => parts.length
decreasing_by
  · exact Nat.lt_succ_of_le (stripApi_length_le rest)
  · exact Nat.lt_succ_of_le (Nat.le_refl _)

/-- `MarkdownProcessor.extractValueFromPath`: strip a leading `api.`, split
on dots, walk. -/
def extractValueFromPath (data : JVal) (path : String) : JVal :=
  extractParts data (stripApi (path.splitOn "."))

/-- `MarkdownProcessor.extractPropertiesFromIssue` (lines 396-409): resolve
every mapping entry; the `try/catch` never fires because the walk is total,
so each property is always assigned. -/
def extractPropertiesFromIssue (issue : JVal) (mapping : List (String × String)) :
    List (String × JVal) :=
  mapping.map fun e => (e.1, extractValueFromPath issue e.2)

/-! ## Claim C8: extraction is non-aborting and null-recovering -/

/-- C8: extraction resolves every mapping entry (the output names are
exactly the mapping's names, in order); a plain segment whose lookup is
`undefined`/`null` yields `null` for the property rather than aborting; and
an array-marker segment whose source field is absent or not an array yields
the empty array. -/
theorem extract_never_aborts (issue : JVal) (m : List (String × String)) :
    (extractPropertiesFromIssue issue m).map Prod.fst = m.map Prod.fst
    ∧ (∀ (cur : JVal) (p : String) (rest : List String),
        hasArrayMarker p = false →
        isMissingOrNull (jlookup cur p) = true →
        extractParts cur (p :: rest) = JVal.null)
    ∧ (∀ (cur : JVal) (p : String) (rest : List String),
        hasArrayMarker p = true →
        isArrayVal (jlookup cur (String.mk (removeFirstBrackets p.data))) = false →
        extractParts cur (p :: rest) = JVal.arr []) := by
  refine ⟨?_, ?_, ?_⟩
  · unfold extractPropertiesFromIssue
    induction m with
    | nil => rfl
    | cons hd tl ih => simp only [List.map_cons, ih]
  · intro cur p rest hmark hmiss
    unfold extractParts
    rw [if_neg (by rw [hmark]; decide)]
    cases hlk : jlookup cur p with
    | none => rfl
    | some v =>
      cases v <;> rw [hlk] at hmiss <;> first | rfl | cases hmiss
  · intro cur p rest hmark harr
    unfold extractParts
    rw [if_pos hmark]
    cases hlk : jlookup cur (String.mk (removeFirstBrackets p.data)) with
    | none => rfl
    | some v =>
      cases v <;> rw [hlk] at harr <;> first | rfl | cases harr

/-- Witness for `extract_never_aborts`: a missing key yields `null`, a
non-array `components` field yields the empty array, and the output names
match the mapping names on a concrete snapshot. -/
theorem extract_never_aborts_witness :
    (extractPropertiesFromIssue (JVal.obj [("key", JVal.str "POP-7")])
        [("key", "api.key"), ("points", "api.fields.customfield_10006")]).map Prod.fst =
      ["key", "points"]
    ∧ extractParts (JVal.obj []) ["summary"] = JVal.null
    ∧ extractParts (JVal.obj [("components", JVal.str "x")]) ["components[]", "name"] =
        JVal.arr [] :=
  ⟨(extract_never_aborts (JVal.obj [("key", JVal.str "POP-7")])
      [("key", "api.key"), ("points", "api.fields.customfield_10006")]).1,
   (extract_never_aborts (JVal.obj []) []).2.1 (JVal.obj []) "summary" [] (by decide) rfl,
   (extract_never_aborts (JVal.obj []) []).2.2 (JVal.obj [("components", JVal.str "x")])
     "components[]" ["name"] (by decide) rfl⟩

/-! ## Validation engine (`IssueValidator`, issue-update.ts, lines 690-879)

`validateAgainstTemplate` receives the summary and description that
`parseMarkdown` extracted from the document body, plus the issue type from
the frontmatter, and dispatches on the lower-cased type. -/

/-- The `(summary, description)` pair extracted from a document body. -/
structure IssueContent where
  summary : String
  description : String
deriving Repr

/-- Case-insensitive character equality as the `i` regex flag provides it
for ASCII. -/
def toLowerChars (l : List Char) : List Char :=
  l.map Char.toLower

/-- JavaScript `String.prototype.toLowerCase` (ASCII). -/
def jsToLowerCase (s : String) : String :=
  String.mk (toLowerChars s.data)

/-- After the header matched, `\s*\n` must follow: the greedy whitespace run
must contain a newline, and the capture begins right after the last newline
of the run. -/
def findBodyStart (rest : List Char) : Option (List Char) :=
  let ws := rest.takeWhile jsWS
  let tailNoNl := ws.reverse.takeWhile (fun c => c ≠ '\n')
  if tailNoNl.length = ws.length then none
  else some (rest.drop (ws.length - tailNoNl.length))

/-- The lazy capture `[\s\S]*?` up to the lookahead `(?=\n###|$)`: everything
before the first occurrence of `\n###`, or the whole remainder. -/
def takeUntilSectionBreak : List Char → List Char
  | [] => []
  | c :: t =>
    if ['\n', '#', '#', '#'].isPrefixOf (c :: t) then []
    else c :: takeUntilSectionBreak t

/-- Scan for the leftmost position where the case-insensitive header match
followed by `\s*\n` succeeds. -/
def extractSectionGo (hdr : List Char) : List Char → Option (List Char)
  | [] => none
  | c :: t =>
    if (toLowerChars hdr).isPrefixOf (toLowerChars (c :: t)) then
      match findBodyStart ((c :: t).drop hdr.length) with
      | some body => some (takeUntilSectionBreak body)
      | none => extractSectionGo hdr t
    else extractSectionGo hdr t

/-- `IssueValidator.extractSection` (lines 875-879): the trimmed capture of
the first match, or the empty string. -/
def extractSection (description sectionHeader : String) : String :=
  match extractSectionGo sectionHeader.data description.data with
  | some cap => String.mk (trimChars cap)
  | none => ""

/-- The required-section errors shared by the type validators: one error per
absent header, in declaration order. -/
def missingSectionErrors (description : String) (requiredSections : List String) :
    List String :=
  requiredSections.filterMap fun section_ =>
    if jsIncludes description section_ then none
    else some ("Missing required section: " ++ section_)

/-- `IssueValidator.validateEpic` (lines 760-795): the `(errors, warnings)`
it appends. -/
def validateEpic (ic : IssueContent) : List String × List String :=
  let description := ic.description
  let errors :=
    missingSectionErrors description
      ["### Problem", "### Solution", "### Technical Scope",
       "### Constraints & Dependencies", "### Timeline"]
    ++ (if jsIncludes description "<INSTRUCTION:" then
          ["Description contains unfilled template instructions"]
        else [])
  let warnings :=
    (if description.data.length < 500 then
       ["Description seems too short for an epic (should be comprehensive)"]
     else [])
    ++ (if jsIncludes description "### Problem" && !(jsIncludes description "impacted") then
          ["Problem section should mention who is impacted"]
        else [])
    ++ (if jsIncludes description "### Solution" && !(jsIncludes description "technical") then
          ["Solution section should include technical approach"]
        else [])
  (errors, warnings)

/-- `IssueValidator.validateStory` (lines 797-838). -/
def validateStory (ic : IssueContent) : List String × List String :=
  let description := ic.description
  let errors :=
    missingSectionErrors description
      ["### Story", "### Technical Details", "### Acceptance Criteria",
       "### Dependencies", "### Definition of Done"]
    ++ (if jsIncludes description "<INSTRUCTION:" then
          ["Description contains unfilled template instructions"]
        else [])
    ++ (if jsIncludes description "### Story" then
          (let storySection := extractSection description "### Story"
           if !(jsIncludes storySection "As a") ||
              !(jsIncludes storySection "I want to") ||
              !(jsIncludes storySection "So that") then
             ["Story section should follow \"As a... I want to... So that...\" format"]
           else [])
        else [])
  let warnings :=
    if jsIncludes description "### Acceptance Criteria" then
      (let acSection := extractSection description "### Acceptance Criteria"
       if !(jsIncludes acSection "[ ]") && !(jsIncludes acSection "- [ ]") then
         ["Acceptance criteria should use checkbox format [ ]"]
       else [])
    else []
  (errors, warnings)

/-- `IssueValidator.validateTask` (lines 840-873). -/
def validateTask (ic : IssueContent) : List String × List String :=
  let description := ic.description
  let errors :=
    missingSectionErrors description
      ["### Objective", "### Technical Approach", "### Acceptance Criteria",
       "### Dependencies"]
    ++ (if jsIncludes description "<INSTRUCTION:" then
          ["Description contains unfilled template instructions"]
        else [])
  let warnings :=
    (if jsIncludes description "### Acceptance Criteria" then
       (let acSection := extractSection description "### Acceptance Criteria"
        if !(jsIncludes acSection "[ ]") && !(jsIncludes acSection "- [ ]") then
          ["Acceptance criteria should use checkbox format [ ]"]
        else [])
     else [])
    ++ (if description.data.length < 200 then
          ["Description seems too short for a task"]
        else [])
  (errors, warnings)

/-- `IssueValidator.validateAgainstTemplate` (lines 724-758): the basic
summary/description checks followed by the type dispatch on the lower-cased
issue type. -/
def validateAgainstTemplate (ic : IssueContent) (issueType : String) :
    List String × List String :=
  let basicErrors :=
    (if (trimChars ic.summary.data).isEmpty then ["Summary is empty or missing"]
     else if jsIncludes ic.summary "<INSTRUCTION:" then
       ["Summary contains template instructions - needs to be filled out"]
     else [])
    ++ (if (trimChars ic.description.data).isEmpty then ["Description is empty or missing"]
        else if jsIncludes ic.description "<INSTRUCTION:" then
          ["Description contains template instructions - needs to be filled out"]
        else [])
  let typed :=
    if jsToLowerCase issueType = "epic" then validateEpic ic
    else if jsToLowerCase issueType = "story" then validateStory ic
    else if jsToLowerCase issueType = "task" then validateTask ic
    else ([], [])
  (basicErrors ++ typed.1, typed.2)

/-! ## Claim C9: Story validation with a missing Acceptance Criteria section -/

/-- C9: a Story document whose description carries every required Story
section except `### Acceptance Criteria`, whose summary and description are
non-empty and free of instruction markers, and whose `### Story` section
contains the three narrative clauses, validates with exactly one error —
the missing `### Acceptance Criteria` section — and no warnings (in
particular no checkbox-format warning, which is conditional on the
section's presence). -/
theorem story_missing_acceptance_criteria_single_error
    (summary description issueType : String)
    (hsum : (trimChars summary.data).isEmpty = false)
    (hsumInstr : jsIncludes summary "<INSTRUCTION:" = false)
    (hdesc : (trimChars description.data).isEmpty = false)
    (hdescInstr : jsIncludes description "<INSTRUCTION:" = false)
    (htype : jsToLowerCase issueType = "story")
    (hs1 : jsIncludes description "### Story" = true)
    (hs2 : jsIncludes description "### Technical Details" = true)
    (hs4 : jsIncludes description "### Dependencies" = true)
    (hs5 : jsIncludes description "### Definition of Done" = true)
    (hac : jsIncludes description "### Acceptance Criteria" = false)
    (hn1 : jsIncludes (extractSection description "### Story") "As a" = true)
    (hn2 : jsIncludes (extractSection description "### Story") "I want to" = true)
    (hn3 : jsIncludes (extractSection description "### Story") "So that" = true) :
    validateAgainstTemplate ⟨summary, description⟩ issueType =
      (["Missing required section: ### Acceptance Criteria"], []) := by
  unfold validateAgainstTemplate validateStory missingSectionErrors
  rw [htype]
  simp [hsum, hsumInstr, hdesc, hdescInstr, hs1, hs2, hs4, hs5, hac, hn1, hn2, hn3]

/-- Witness for `story_missing_acceptance_criteria_single_error` on a
concrete Story body. -/
theorem story_missing_acceptance_criteria_single_error_witness :
    validateAgainstTemplate
      ⟨"Sync files",
       "### Story\nAs a user, I want to sync, So that drift stops\n### Technical Details\nuses the API\n### Dependencies\nnone\n### Definition of Done\nmerged"⟩
      "Story" =
      (["Missing required section: ### Acceptance Criteria"], []) :=
  story_missing_acceptance_criteria_single_error "Sync files"
    "### Story\nAs a user, I want to sync, So that drift stops\n### Technical Details\nuses the API\n### Dependencies\nnone\n### Definition of Done\nmerged"
    "Story" (by decide) (by decide) (by decide) (by decide) (by decide) (by decide)
    (by decide) (by decide) (by decide) (by decide) (by decide) (by decide) (by decide)

/-! ## Frontmatter codec (`FrontmatterParser`, frontmatter-parser.ts)

A document is modelled as its list of lines (the source's first step is
`content.split('\n')` and its last is `join('\n')`).  The `js-yaml`
`load`/`dump` pair is modelled, restricted to the fixed record shape this
codec reads and writes (two-space indent, block sequences, `null` for
nulls): `loadRawFM` parses the metadata lines into a record of optional
fields — missing key, explicit `null` and the empty value all become
`none`, matching the JavaScript falsiness that `normalizeFrontmatter`
applies — and `dumpFrontmatter` re-emits the normalized record with stable
key order.  Numbers are carried as their decimal text.  `yamlNullDoc`
models `yaml.load` returning `undefined`/`null` (blank or comment-only or
null-token metadata), on which the source's `normalizeFrontmatter` throws a
`TypeError`. -/

/-- The raw result of decoding the metadata block: every field optional,
as on a plain JavaScript object. -/
structure RawFrontmatter where
  project : Option String
  type : Option String
  components : Option (List String)
  labels : Option (List String)
  status : Option String
  customfield_12401 : Option String
  customfield_12400 : Option String
  customfield_10006 : Option String
  customfield_10000 : Option String
  issueKey : Option String
  lastSync : Option String
  localHash : Option String
  remoteHash : Option String
deriving DecidableEq, Repr

/-- The normalized record (the `FrontmatterData` interface): fields that
`normalizeFrontmatter` always fills are non-optional. -/
structure FrontmatterData where
  project : Option String
  type : String
  components : List String
  labels : List String
  status : Option String
  customfield_12401 : String
  customfield_12400 : String
  customfield_10006 : String
  customfield_10000 : Option String
  issueKey : Option String
  lastSync : Option String
  localHash : Option String
  remoteHash : Option String
deriving DecidableEq, Repr

/-- `x || null` for a scalar: `undefined`, `null` and the falsy empty
string all become `null`. -/
def jsOrNull (v : Option String) : Option String :=
  match v with
  | none => none
  | some s => if s = "" then none else some s

/-- `x || dflt` for a scalar with a truthy default. -/
def jsOrDefault (v : Option String) (dflt : String) : String :=
  match v with
  | none => dflt
  | some s => if s = "" then dflt else s

/-- `FrontmatterParser.normalizeFrontmatter` (frontmatter-parser.ts,
lines 91-113): every field defaulted by JavaScript `||`; arrays are always
truthy, so a present array (even empty) is kept. -/
def normalizeFrontmatter (d : RawFrontmatter) : FrontmatterData where
  project := jsOrNull d.project
  type := jsOrDefault d.type "Epic"
  components := d.components.getD []
  labels := d.labels.getD []
  status := jsOrNull d.status
  customfield_12401 := jsOrDefault d.customfield_12401 "IaC"
  customfield_12400 := jsOrDefault d.customfield_12400 "Private Cloud 2.0"
  customfield_10006 := jsOrDefault d.customfield_10006 "0"
  customfield_10000 := jsOrNull d.customfield_10000
  issueKey := jsOrNull d.issueKey
  lastSync := jsOrNull d.lastSync
  localHash := jsOrNull d.localHash
  remoteHash := jsOrNull d.remoteHash

/-- A scalar as `yaml.dump` prints it. -/
def scalValue : Option String → String
  | none => "null"
  | some s => s

/-- A dumped scalar field line (two-space indent). -/
def scalLine (name : String) (v : Option String) : String :=
  ("  " ++ name ++ ": ") ++ scalValue v

/-- A dumped block-sequence item line (four-space indent). -/
def itemLine (s : String) : String :=
  "    - " ++ s

/-- A dumped list field: inline `[]` when empty, a block sequence
otherwise. -/
def listFieldLines (name : String) (v : List String) : List String :=
  match v with
  | [] => ["  " ++ name ++ ": []"]
  | items => ("  " ++ name ++ ":") :: items.map itemLine

/-- The dumped `standard` section, key order as in
`normalizeFrontmatter`. -/
def dumpStandard (F : FrontmatterData) : List String :=
  scalLine "project" F.project ::
    scalLine "type" (some F.type) ::
      (listFieldLines "components" F.components ++
        (listFieldLines "labels" F.labels ++ [scalLine "status" F.status]))

/-- The dumped `custom` section. -/
def dumpCustom (F : FrontmatterData) : List String :=
  [scalLine "customfield_12401" (some F.customfield_12401),
   scalLine "customfield_12400" (some F.customfield_12400),
   scalLine "customfield_10006" (some F.customfield_10006),
   scalLine "customfield_10000" F.customfield_10000]

/-- The dumped `sync` section. -/
def dumpSync (F : FrontmatterData) : List String :=
  [scalLine "issueKey" F.issueKey,
   scalLine "lastSync" F.lastSync,
   scalLine "localHash" F.localHash,
   scalLine "remoteHash" F.remoteHash]

/-- `yaml.dump(parsed.frontmatter, {indent: 2, lineWidth: -1, noRefs: true})`
less the trailing newline removed by `.trim()`, as lines. -/
def dumpFrontmatter (F : FrontmatterData) : List String :=
  "standard:" ::
    (dumpStandard F ++ ("custom:" :: (dumpCustom F ++ ("sync:" :: dumpSync F))))

/-- A line belonging to the block of the current top-level key (two-space
indent). -/
def lineIndented (l : String) : Bool :=
  jsStartsWith l "  "

/-- Find the block of a top-level key: the indented lines following the
first line `name:`. -/
def findSection (lines : List String) (name : String) : Option (List String) :=
  match lines with
  | [] => none
  | l :: rest =>
    if l = name ++ ":" then some (rest.takeWhile lineIndented)
    else findSection rest name

/-- Strip a literal prefix. -/
def stripPrefixStr (p s : String) : Option String :=
  if p.data.isPrefixOf s.data then some (String.mk (s.data.drop p.data.length))
  else none

/-- A plain scalar: the empty value and the `null` token decode to `null`. -/
def parseScalarToken (v : String) : Option String :=
  if v = "" then none
  else if v = "null" then none
  else some v

/-- Look up a scalar field inside a section: the value after `name: `, or
`null` for a bare `name:` line. -/
def fieldScalar (sec : List String) (name : String) : Option String :=
  match sec with
  | [] => none
  | l :: rest =>
    match stripPrefixStr ("  " ++ name ++ ": ") l with
    | some v => parseScalarToken v
    | none =>
      if l = "  " ++ name ++ ":" then none
      else fieldScalar rest name

/-- Look up a list field inside a section: inline `[]`, or the block items
following a bare `name:` line. -/
def fieldList (sec : List String) (name : String) : Option (List String) :=
  match sec with
  | [] => none
  | l :: rest =>
    if l = "  " ++ name ++ ": []" then some []
    else if l = "  " ++ name ++ ":" then
      some ((rest.takeWhile (fun x => jsStartsWith x "    - ")).map
        (fun x => String.mk (x.data.drop 6)))
    else fieldList rest name

/-- Decode the metadata lines into the raw record. -/
def loadRawFM (fmLines : List String) : RawFrontmatter :=
  let std := (findSection fmLines "standard").getD []
  let cus := (findSection fmLines "custom").getD []
  let syn := (findSection fmLines "sync").getD []
  { project := fieldScalar std "project"
    type := fieldScalar std "type"
    components := fieldList std "components"
    labels := fieldList std "labels"
    status := fieldScalar std "status"
    customfield_12401 := fieldScalar cus "customfield_12401"
    customfield_12400 := fieldScalar cus "customfield_12400"
    customfield_10006 := fieldScalar cus "customfield_10006"
    customfield_10000 := fieldScalar cus "customfield_10000"
    issueKey := fieldScalar syn "issueKey"
    lastSync := fieldScalar syn "lastSync"
    localHash := fieldScalar syn "localHash"
    remoteHash := fieldScalar syn "remoteHash" }

/-- A line `yaml.load` does not ignore (not blank, not a comment). -/
def isSignificantLine (l : String) : Bool :=
  !((trimChars l.data).isEmpty) && !(jsStartsWith (String.mk (trimChars l.data)) "#")

/-- A null-document token line. -/
def isNullDocToken (l : String) : Bool :=
  String.mk (trimChars l.data) = "null" || String.mk (trimChars l.data) = "~"

/-- `yaml.load` of the metadata block returns `undefined`/`null`: blank or
comment-only lines, or a single null token.  `normalizeFrontmatter` then
throws a `TypeError` reading `.standard` of it. -/
def yamlNullDoc (fmLines : List String) : Bool :=
  match fmLines.filter isSignificantLine with
  | [] => true
  | [x] => isNullDocToken x
  | _ => false

/-- A parsed document: the normalized metadata and the body lines
(`ParsedMarkdown.frontmatter` / `.content`; `rawContent` is the input
itself). -/
structure ParsedMarkdown where
  frontmatter : FrontmatterData
  content : List String
deriving DecidableEq, Repr

/-- The closing-delimiter scan of `parseContent` (frontmatter-parser.ts,
lines 61-74): the lines before the first `---` and the lines after it. -/
def splitFrontmatter : List String → Option (List String × List String)
  | [] => none
  | l :: rest =>
    if l = "---" then some ([], rest)
    else
      match splitFrontmatter rest with
      | some (a, b) => some (l :: a, b)
      | none => none

/-- `FrontmatterParser.parseContent` (lines 53-86): requires at least two
lines, an opening `---` line, a closing `---` line, and a metadata block
that decodes to an object (a null document makes `normalizeFrontmatter`
throw); `none` models the thrown errors.  One divergence from the source:
`loadRawFM` is total on non-null blocks, whereas real `yaml.load` can also
throw a `YAMLException` on a malformed block, so this model accepts some
documents the source rejects.  Theorems about parsing therefore assert only
failure conditions the source shares (the line-level delimiter checks and
null documents) and success on metadata blocks of the codec's own dumped
shape, which are well-formed YAML by construction. -/
def parseContent (lines : List String) : Option ParsedMarkdown :=
  if lines.length < 2 then none
  else
    match lines with
    | [] => none
    | l0 :: rest =>
      if l0 ≠ "---" then none
      else
        match splitFrontmatter rest with
        | none => none
        | some (fmLines, contentLines) =>
          if yamlNullDoc fmLines then none
          else some ⟨normalizeFrontmatter (loadRawFM fmLines), contentLines⟩

/-- `FrontmatterParser.serialize` (lines 118-132):
`[delimiter, dumped-and-trimmed yaml, delimiter, '', content].join('\n')`. -/
def serialize (p : ParsedMarkdown) : List String :=
  "---" :: (dumpFrontmatter p.frontmatter ++ ("---" :: "" :: p.content))

/-! ## Round-trip lemmas for the frontmatter codec -/

theorem startsWith_append_of_prefixOf (p q sv : String)
    (h : p.data.isPrefixOf q.data = true) : jsStartsWith (q ++ sv) p = true := by
  unfold jsStartsWith
  rw [String.data_append]
  exact List.isPrefixOf_iff_prefix.2
    ((List.isPrefixOf_iff_prefix.1 h).trans (List.prefix_append _ _))

theorem not_startsWith_append (p q sv : String)
    (h1 : p.data.isPrefixOf q.data = false) (h2 : q.data.isPrefixOf p.data = false) :
    jsStartsWith (q ++ sv) p = false := by
  unfold jsStartsWith
  rw [String.data_append, Bool.eq_false_iff]
  intro hp
  rcases List.prefix_or_prefix_of_prefix (List.isPrefixOf_iff_prefix.1 hp)
      (List.prefix_append q.data sv.data) with h | h
  · rw [List.isPrefixOf_iff_prefix.2 h] at h1; cases h1
  · rw [List.isPrefixOf_iff_prefix.2 h] at h2; cases h2

theorem append_ne_of_not_prefixOf (q sv t : String)
    (h : q.data.isPrefixOf t.data = false) : q ++ sv ≠ t := by
  intro he
  have hq : q.data.isPrefixOf t.data = true := by
    rw [← he, String.data_append]
    exact List.isPrefixOf_iff_prefix.2 (List.prefix_append _ _)
  rw [hq] at h
  cases h

theorem stripPrefix_append (p v : String) : stripPrefixStr p (p ++ v) = some v := by
  unfold stripPrefixStr
  rw [String.data_append,
    if_pos (List.isPrefixOf_iff_prefix.2 (List.prefix_append _ _)),
    List.drop_left]

theorem stripPrefix_ne (p q sv : String)
    (h1 : p.data.isPrefixOf q.data = false) (h2 : q.data.isPrefixOf p.data = false) :
    stripPrefixStr p (q ++ sv) = none := by
  unfold stripPrefixStr
  rw [String.data_append, if_neg]
  intro hp
  rcases List.prefix_or_prefix_of_prefix (List.isPrefixOf_iff_prefix.1 hp)
      (List.prefix_append q.data sv.data) with h | h
  · rw [List.isPrefixOf_iff_prefix.2 h] at h1; cases h1
  · rw [List.isPrefixOf_iff_prefix.2 h] at h2; cases h2

theorem ne_of_indented (l x : String) (h : lineIndented l = true)
    (hx : lineIndented x = false) : l ≠ x := by
  intro he
  rw [he, hx] at h
  cases h

theorem takeWhile_all_append {p : String → Bool} (A : List String) (x : String)
    (B : List String) (hA : ∀ l ∈ A, p l = true) (hx : p x = false) :
    (A ++ x :: B).takeWhile p = A := by
  induction A with
  | nil => simp [List.takeWhile_cons, hx]
  | cons a t ih =>
    rw [List.cons_append, List.takeWhile_cons, hA a (by simp), if_pos rfl,
      ih (fun l hl => hA l (by simp [hl]))]

theorem findSection_cons (l : String) (rest : List String) (name : String) :
    findSection (l :: rest) name =
      if l = name ++ ":" then some (rest.takeWhile lineIndented)
      else findSection rest name := rfl

theorem findSection_skip_all (A lines : List String) (name : String)
    (h : ∀ l ∈ A, l ≠ name ++ ":") :
    findSection (A ++ lines) name = findSection lines name := by
  induction A with
  | nil => rfl
  | cons a t ih =>
    rw [List.cons_append, findSection_cons, if_neg (h a (by simp))]
    exact ih (fun l hl => h l (by simp [hl]))

theorem scalLine_eq (n : String) (v : Option String) :
    scalLine n v = "  " ++ (n ++ (": " ++ scalValue v)) := by
  unfold scalLine
  rw [String.append_assoc, String.append_assoc]

theorem itemLine_eq (s : String) : itemLine s = "  " ++ ("  - " ++ s) := by
  show "    - " ++ s = "  " ++ ("  - " ++ s)
  rw [← String.append_assoc]
  rfl

theorem indented_two_space (r : String) : lineIndented ("  " ++ r) = true := by
  unfold lineIndented
  exact startsWith_append_of_prefixOf "  " "  " r (by decide)

theorem scalLine_indented (n : String) (v : Option String) :
    lineIndented (scalLine n v) = true := by
  rw [scalLine_eq]; exact indented_two_space _

theorem itemLine_indented (s : String) : lineIndented (itemLine s) = true := by
  rw [itemLine_eq]; exact indented_two_space _

theorem listFieldLines_indented (n : String) (v : List String) :
    ∀ l ∈ listFieldLines n v, lineIndented l = true := by
  intro l hl
  unfold listFieldLines at hl
  cases v with
  | nil =>
    simp only [List.mem_singleton] at hl
    subst hl
    exact indented_two_space _
  | cons a t =>
    rcases List.mem_cons.1 hl with h | h
    · subst h
      exact indented_two_space _
    · obtain ⟨s, _, rfl⟩ := List.mem_map.1 h
      exact itemLine_indented s

theorem dumpStandard_indented (F : FrontmatterData) :
    ∀ l ∈ dumpStandard F, lineIndented l = true := by
  intro l hl
  unfold dumpStandard at hl
  rcases List.mem_cons.1 hl with rfl | hl
  · exact scalLine_indented _ _
  rcases List.mem_cons.1 hl with rfl | hl
  · exact scalLine_indented _ _
  rcases List.mem_append.1 hl with h | hl
  · exact listFieldLines_indented _ _ l h
  rcases List.mem_append.1 hl with h | hl
  · exact listFieldLines_indented _ _ l h
  · rw [List.mem_singleton] at hl
    subst hl
    exact scalLine_indented _ _

theorem dumpCustom_indented (F : FrontmatterData) :
    ∀ l ∈ dumpCustom F, lineIndented l = true := by
  intro l hl
  unfold dumpCustom at hl
  rcases List.mem_cons.1 hl with rfl | hl
  · exact scalLine_indented _ _
  rcases List.mem_cons.1 hl with rfl | hl
  · exact scalLine_indented _ _
  rcases List.mem_cons.1 hl with rfl | hl
  · exact scalLine_indented _ _
  · rw [List.mem_singleton] at hl
    subst hl
    exact scalLine_indented _ _

theorem dumpSync_indented (F : FrontmatterData) :
    ∀ l ∈ dumpSync F, lineIndented l = true := by
  intro l hl
  unfold dumpSync at hl
  rcases List.mem_cons.1 hl with rfl | hl
  · exact scalLine_indented _ _
  rcases List.mem_cons.1 hl with rfl | hl
  · exact scalLine_indented _ _
  rcases List.mem_cons.1 hl with rfl | hl
  · exact scalLine_indented _ _
  · rw [List.mem_singleton] at hl
    subst hl
    exact scalLine_indented _ _

/-- A scalar string as the loader can produce it (never the empty string or
the `null` token, which decode to `null`). -/
def okStr (s : String) : Bool :=
  !(s = "") && !(s = "null")

/-- The loader invariant for an optional scalar. -/
def okScalar : Option String → Bool
  | none => true
  | some s => okStr s

/-- The loader invariant for a whole normalized record: every scalar field
is absent or a non-empty non-`null`-token string. -/
def okFM (F : FrontmatterData) : Bool :=
  okScalar F.project && okStr F.type && okScalar F.status &&
    okStr F.customfield_12401 && okStr F.customfield_12400 &&
    okStr F.customfield_10006 && okScalar F.customfield_10000 &&
    okScalar F.issueKey && okScalar F.lastSync && okScalar F.localHash &&
    okScalar F.remoteHash

theorem parseScalarToken_scalValue (v : Option String) (h : okScalar v = true) :
    parseScalarToken (scalValue v) = v := by
  cases v with
  | none => rfl
  | some s =>
    unfold okScalar okStr at h
    simp only [Bool.and_eq_true, Bool.not_eq_true', decide_eq_false_iff_not] at h
    unfold parseScalarToken scalValue
    rw [if_neg h.1, if_neg h.2]

theorem fieldScalar_cons (l : String) (rest : List String) (name : String) :
    fieldScalar (l :: rest) name =
      match stripPrefixStr ("  " ++ name ++ ": ") l with
      | some v => parseScalarToken v
      | none =>
        if l = "  " ++ name ++ ":" then none
        else fieldScalar rest name := rfl

theorem fieldScalar_cons_hit (name : String) (v : Option String) (rest : List String) :
    fieldScalar (scalLine name v :: rest) name = parseScalarToken (scalValue v) := by
  rw [fieldScalar_cons,
    show scalLine name v = ("  " ++ name ++ ": ") ++ scalValue v from rfl,
    stripPrefix_append]

theorem fieldScalar_cons_skip (name l : String) (rest : List String)
    (h1 : stripPrefixStr ("  " ++ name ++ ": ") l = none)
    (h2 : l ≠ "  " ++ name ++ ":") :
    fieldScalar (l :: rest) name = fieldScalar rest name := by
  rw [fieldScalar_cons, h1, if_neg h2]

theorem fieldScalar_skip_scalLine (name n2 : String) (v : Option String)
    (rest : List String)
    (hp : ("  " ++ name ++ ": ").data.isPrefixOf ("  " ++ n2 ++ ": ").data = false)
    (hq : ("  " ++ n2 ++ ": ").data.isPrefixOf ("  " ++ name ++ ": ").data = false)
    (hne : ("  " ++ n2 ++ ": ").data.isPrefixOf ("  " ++ name ++ ":").data = false) :
    fieldScalar (scalLine n2 v :: rest) name = fieldScalar rest name := by
  rw [show scalLine n2 v = ("  " ++ n2 ++ ": ") ++ scalValue v from rfl]
  exact fieldScalar_cons_skip name _ rest (stripPrefix_ne _ _ _ hp hq)
    (append_ne_of_not_prefixOf _ _ _ hne)

theorem fieldScalar_skip_itemLine (name s : String) (rest : List String)
    (hp : ("  " ++ name ++ ": ").data.isPrefixOf ("    - ").data = false)
    (hq : ("    - ").data.isPrefixOf ("  " ++ name ++ ": ").data = false)
    (hne : ("    - ").data.isPrefixOf ("  " ++ name ++ ":").data = false) :
    fieldScalar (itemLine s :: rest) name = fieldScalar rest name := by
  rw [show itemLine s = ("    - " : String) ++ s from rfl]
  exact fieldScalar_cons_skip name _ rest (stripPrefix_ne _ _ _ hp hq)
    (append_ne_of_not_prefixOf _ _ _ hne)

theorem fieldScalar_skip_items (name : String) (items : List String)
    (rest : List String)
    (hp : ("  " ++ name ++ ": ").data.isPrefixOf ("    - ").data = false)
    (hq : ("    - ").data.isPrefixOf ("  " ++ name ++ ": ").data = false)
    (hne : ("    - ").data.isPrefixOf ("  " ++ name ++ ":").data = false) :
    fieldScalar (items.map itemLine ++ rest) name = fieldScalar rest name := by
  induction items with
  | nil => rfl
  | cons a t ih =>
    rw [List.map_cons, List.cons_append, fieldScalar_skip_itemLine name a _ hp hq hne, ih]

theorem fieldScalar_skip_listField (name n2 : String) (v : List String)
    (rest : List String)
    (hhdr : stripPrefixStr ("  " ++ name ++ ": ") ("  " ++ n2 ++ ":") = none)
    (hhdrne : ("  " ++ n2 ++ ":" : String) ≠ "  " ++ name ++ ":")
    (hempty : stripPrefixStr ("  " ++ name ++ ": ") ("  " ++ n2 ++ ": []") = none)
    (hemptyne : ("  " ++ n2 ++ ": []" : String) ≠ "  " ++ name ++ ":")
    (hp : ("  " ++ name ++ ": ").data.isPrefixOf ("    - ").data = false)
    (hq : ("    - ").data.isPrefixOf ("  " ++ name ++ ": ").data = false)
    (hne : ("    - ").data.isPrefixOf ("  " ++ name ++ ":").data = false) :
    fieldScalar (listFieldLines n2 v ++ rest) name = fieldScalar rest name := by
  unfold listFieldLines
  cases v with
  | nil =>
    rw [List.singleton_append, fieldScalar_cons_skip name _ rest hempty hemptyne]
  | cons a t =>
    rw [List.cons_append, fieldScalar_cons_skip name _ _ hhdr hhdrne,
      fieldScalar_skip_items name (a :: t) rest hp hq hne]

theorem fieldList_cons (l : String) (rest : List String) (name : String) :
    fieldList (l :: rest) name =
      if l = "  " ++ name ++ ": []" then some []
      else if l = "  " ++ name ++ ":" then
        some ((rest.takeWhile (fun x => jsStartsWith x "    - ")).map
          (fun x => String.mk (x.data.drop 6)))
      else fieldList rest name := rfl

theorem fieldList_skip (name l : String) (rest : List String)
    (h1 : l ≠ "  " ++ name ++ ": []") (h2 : l ≠ "  " ++ name ++ ":") :
    fieldList (l :: rest) name = fieldList rest name := by
  rw [fieldList_cons, if_neg h1, if_neg h2]

theorem fieldList_skip_scalLine (name n2 : String) (v : Option String)
    (rest : List String)
    (h1 : ("  " ++ n2 ++ ": ").data.isPrefixOf ("  " ++ name ++ ": []").data = false)
    (h2 : ("  " ++ n2 ++ ": ").data.isPrefixOf ("  " ++ name ++ ":").data = false) :
    fieldList (scalLine n2 v :: rest) name = fieldList rest name := by
  rw [show scalLine n2 v = ("  " ++ n2 ++ ": ") ++ scalValue v from rfl]
  exact fieldList_skip name _ rest (append_ne_of_not_prefixOf _ _ _ h1)
    (append_ne_of_not_prefixOf _ _ _ h2)

theorem itemLine_extract (s : String) : String.mk ((itemLine s).data.drop 6) = s := by
  show String.mk ((("    - " : String) ++ s).data.drop 6) = s
  rw [String.data_append]
  show String.mk ((("    - " : String).data ++ s.data).drop ("    - " : String).data.length) = s
  rw [List.drop_left]

theorem takeWhile_nil_of_head {p : String → Bool} (x : String) (B : List String)
    (hx : p x = false) : (x :: B).takeWhile p = [] := by
  simp [List.takeWhile_cons, hx]

theorem takeWhile_all_append2 {p : String → Bool} (A R : List String)
    (hA : ∀ l ∈ A, p l = true) (hR : R.takeWhile p = []) :
    (A ++ R).takeWhile p = A := by
  induction A with
  | nil => simpa using hR
  | cons a t ih =>
    rw [List.cons_append, List.takeWhile_cons, hA a (by simp), if_pos rfl,
      ih (fun l hl => hA l (by simp [hl]))]

theorem fieldList_cons_block (name : String) (items : List String) (R : List String)
    (hne : ("  " ++ name ++ ":" : String) ≠ "  " ++ name ++ ": []")
    (hR : R.takeWhile (fun x => jsStartsWith x "    - ") = []) :
    fieldList (("  " ++ name ++ ":") :: (items.map itemLine ++ R)) name = some items := by
  rw [fieldList_cons, if_neg hne, if_pos rfl]
  congr 1
  rw [takeWhile_all_append2 (items.map itemLine) R
    (fun l hl => by
      obtain ⟨s, _, rfl⟩ := List.mem_map.1 hl
      exact startsWith_append_of_prefixOf _ _ _ (by decide))
    hR]
  rw [List.map_map]
  have hco : ((fun x => String.mk (x.data.drop 6)) ∘ itemLine) = id :=
    funext fun s => itemLine_extract s
  rw [hco, List.map_id]

theorem fieldList_cons_empty (name : String) (rest : List String) :
    fieldList (("  " ++ name ++ ": []") :: rest) name = some [] := by
  rw [fieldList_cons, if_pos rfl]

theorem fieldList_skip_items (name : String) (items : List String) (rest : List String)
    (h1 : ("    - ").data.isPrefixOf ("  " ++ name ++ ": []").data = false)
    (h2 : ("    - ").data.isPrefixOf ("  " ++ name ++ ":").data = false) :
    fieldList (items.map itemLine ++ rest) name = fieldList rest name := by
  induction items with
  | nil => rfl
  | cons a t ih =>
    rw [List.map_cons, List.cons_append,
      show itemLine a = ("    - " : String) ++ a from rfl,
      fieldList_skip name _ _ (append_ne_of_not_prefixOf _ _ _ h1)
        (append_ne_of_not_prefixOf _ _ _ h2), ih]

theorem fieldList_skip_listField (name n2 : String) (v : List String)
    (rest : List String)
    (hhdr1 : ("  " ++ n2 ++ ":" : String) ≠ "  " ++ name ++ ": []")
    (hhdr2 : ("  " ++ n2 ++ ":" : String) ≠ "  " ++ name ++ ":")
    (hemp1 : ("  " ++ n2 ++ ": []" : String) ≠ "  " ++ name ++ ": []")
    (hemp2 : ("  " ++ n2 ++ ": []" : String) ≠ "  " ++ name ++ ":")
    (hit1 : ("    - ").data.isPrefixOf ("  " ++ name ++ ": []").data = false)
    (hit2 : ("    - ").data.isPrefixOf ("  " ++ name ++ ":").data = false) :
    fieldList (listFieldLines n2 v ++ rest) name = fieldList rest name := by
  unfold listFieldLines
  cases v with
  | nil =>
    rw [List.singleton_append, fieldList_skip name _ rest hemp1 hemp2]
  | cons a t =>
    rw [List.cons_append, fieldList_skip name _ _ hhdr1 hhdr2,
      fieldList_skip_items name (a :: t) rest hit1 hit2]

theorem findSection_dump_standard (F : FrontmatterData) :
    findSection (dumpFrontmatter F) "standard" = some (dumpStandard F) := by
  unfold dumpFrontmatter
  rw [findSection_cons, if_pos (by decide)]
  congr 1
  exact takeWhile_all_append (dumpStandard F) "custom:" _
    (dumpStandard_indented F) (by decide)

theorem findSection_dump_custom (F : FrontmatterData) :
    findSection (dumpFrontmatter F) "custom" = some (dumpCustom F) := by
  unfold dumpFrontmatter
  rw [findSection_cons, if_neg (by decide),
    findSection_skip_all (dumpStandard F) _ "custom"
      (fun l hl => ne_of_indented l _ (dumpStandard_indented F l hl) (by decide)),
    findSection_cons, if_pos (by decide)]
  congr 1

theorem findSection_dump_sync (F : FrontmatterData) :
    findSection (dumpFrontmatter F) "sync" = some (dumpSync F) := by
  unfold dumpFrontmatter
  rw [findSection_cons, if_neg (by decide),
    findSection_skip_all (dumpStandard F) _ "sync"
      (fun l hl => ne_of_indented l _ (dumpStandard_indented F l hl) (by decide)),
    findSection_cons, if_neg (by decide),
    findSection_skip_all (dumpCustom F) _ "sync"
      (fun l hl => ne_of_indented l _ (dumpCustom_indented F l hl) (by decide)),
    findSection_cons, if_pos (by decide)]
  congr 1

/-- The raw record whose normalization is `F`: what re-decoding the dump of
a normalized record yields. -/
def rawOf (F : FrontmatterData) : RawFrontmatter where
  project := F.project
  type := some F.type
  components := some F.components
  labels := some F.labels
  status := F.status
  customfield_12401 := some F.customfield_12401
  customfield_12400 := some F.customfield_12400
  customfield_10006 := some F.customfield_10006
  customfield_10000 := F.customfield_10000
  issueKey := F.issueKey
  lastSync := F.lastSync
  localHash := F.localHash
  remoteHash := F.remoteHash

theorem fieldScalar_dumpStandard_project (F : FrontmatterData)
    (h : okScalar F.project = true) :
    fieldScalar (dumpStandard F) "project" = F.project := by
  unfold dumpStandard
  rw [fieldScalar_cons_hit, parseScalarToken_scalValue _ h]

theorem fieldScalar_dumpStandard_type (F : FrontmatterData)
    (h : okStr F.type = true) :
    fieldScalar (dumpStandard F) "type" = some F.type := by
  unfold dumpStandard
  rw [fieldScalar_skip_scalLine "type" "project" _ _ (by decide) (by decide) (by decide),
    fieldScalar_cons_hit, parseScalarToken_scalValue (some F.type) (by exact h)]

theorem fieldScalar_dumpStandard_status (F : FrontmatterData)
    (h : okScalar F.status = true) :
    fieldScalar (dumpStandard F) "status" = F.status := by
  unfold dumpStandard
  rw [fieldScalar_skip_scalLine "status" "project" _ _ (by decide) (by decide) (by decide),
    fieldScalar_skip_scalLine "status" "type" _ _ (by decide) (by decide) (by decide),
    fieldScalar_skip_listField "status" "components" F.components _
      (by decide) (by decide) (by decide) (by decide) (by decide) (by decide) (by decide),
    fieldScalar_skip_listField "status" "labels" F.labels _
      (by decide) (by decide) (by decide) (by decide) (by decide) (by decide) (by decide),
    fieldScalar_cons_hit, parseScalarToken_scalValue _ h]

theorem labelsBlockStop (F : FrontmatterData) :
    (listFieldLines "labels" F.labels ++
      [scalLine "status" F.status]).takeWhile (fun x => jsStartsWith x "    - ") = [] := by
  unfold listFieldLines
  cases F.labels with
  | nil =>
    rw [List.singleton_append]
    exact takeWhile_nil_of_head _ _ (by decide)
  | cons b u =>
    rw [List.cons_append]
    exact takeWhile_nil_of_head _ _ (by decide)

theorem fieldList_dumpStandard_components (F : FrontmatterData) :
    fieldList (dumpStandard F) "components" = some F.components := by
  unfold dumpStandard
  rw [fieldList_skip_scalLine "components" "project" _ _ (by decide) (by decide),
    fieldList_skip_scalLine "components" "type" _ _ (by decide) (by decide)]
  cases hC : F.components with
  | nil =>
    show fieldList (listFieldLines "components" [] ++ _) "components" = some []
    unfold listFieldLines
    rw [List.singleton_append, fieldList_cons_empty]
  | cons a t =>
    show fieldList (listFieldLines "components" (a :: t) ++ _) "components" =
      some (a :: t)
    unfold listFieldLines
    rw [List.cons_append]
    exact fieldList_cons_block "components" (a :: t) _ (by decide) (labelsBlockStop F)

theorem statusLineStop (F : FrontmatterData) :
    ([scalLine "status" F.status] : List String).takeWhile
      (fun x => jsStartsWith x "    - ") = [] := by
  refine takeWhile_nil_of_head _ _ ?_
  rw [show scalLine "status" F.status =
      ("  " ++ "status" ++ ": ") ++ scalValue F.status from rfl]
  exact not_startsWith_append _ _ _ (by decide) (by decide)

theorem fieldList_dumpStandard_labels (F : FrontmatterData) :
    fieldList (dumpStandard F) "labels" = some F.labels := by
  unfold dumpStandard
  rw [fieldList_skip_scalLine "labels" "project" _ _ (by decide) (by decide),
    fieldList_skip_scalLine "labels" "type" _ _ (by decide) (by decide),
    fieldList_skip_listField "labels" "components" F.components _
      (by decide) (by decide) (by decide) (by decide) (by decide) (by decide)]
  cases hL : F.labels with
  | nil =>
    show fieldList (listFieldLines "labels" [] ++ _) "labels" = some []
    unfold listFieldLines
    rw [List.singleton_append, fieldList_cons_empty]
  | cons b u =>
    show fieldList (listFieldLines "labels" (b :: u) ++ _) "labels" = some (b :: u)
    unfold listFieldLines
    rw [List.cons_append]
    exact fieldList_cons_block "labels" (b :: u) _ (by decide) (statusLineStop F)

theorem fieldScalar_dumpCustom_12401 (F : FrontmatterData)
    (h : okStr F.customfield_12401 = true) :
    fieldScalar (dumpCustom F) "customfield_12401" = some F.customfield_12401 := by
  unfold dumpCustom
  rw [fieldScalar_cons_hit,
    parseScalarToken_scalValue (some F.customfield_12401) (by exact h)]

theorem fieldScalar_dumpCustom_12400 (F : FrontmatterData)
    (h : okStr F.customfield_12400 = true) :
    fieldScalar (dumpCustom F) "customfield_12400" = some F.customfield_12400 := by
  unfold dumpCustom
  rw [fieldScalar_skip_scalLine "customfield_12400" "customfield_12401" _ _
      (by decide) (by decide) (by decide),
    fieldScalar_cons_hit,
    parseScalarToken_scalValue (some F.customfield_12400) (by exact h)]

theorem fieldScalar_dumpCustom_10006 (F : FrontmatterData)
    (h : okStr F.customfield_10006 = true) :
    fieldScalar (dumpCustom F) "customfield_10006" = some F.customfield_10006 := by
  unfold dumpCustom
  rw [fieldScalar_skip_scalLine "customfield_10006" "customfield_12401" _ _
      (by decide) (by decide) (by decide),
    fieldScalar_skip_scalLine "customfield_10006" "customfield_12400" _ _
      (by decide) (by decide) (by decide),
    fieldScalar_cons_hit,
    parseScalarToken_scalValue (some F.customfield_10006) (by exact h)]

theorem fieldScalar_dumpCustom_10000 (F : FrontmatterData)
    (h : okScalar F.customfield_10000 = true) :
    fieldScalar (dumpCustom F) "customfield_10000" = F.customfield_10000 := by
  unfold dumpCustom
  rw [fieldScalar_skip_scalLine "customfield_10000" "customfield_12401" _ _
      (by decide) (by decide) (by decide),
    fieldScalar_skip_scalLine "customfield_10000" "customfield_12400" _ _
      (by decide) (by decide) (by decide),
    fieldScalar_skip_scalLine "customfield_10000" "customfield_10006" _ _
      (by decide) (by decide) (by decide),
    fieldScalar_cons_hit, parseScalarToken_scalValue _ h]

theorem fieldScalar_dumpSync_issueKey (F : FrontmatterData)
    (h : okScalar F.issueKey = true) :
    fieldScalar (dumpSync F) "issueKey" = F.issueKey := by
  unfold dumpSync
  rw [fieldScalar_cons_hit, parseScalarToken_scalValue _ h]

theorem fieldScalar_dumpSync_lastSync (F : FrontmatterData)
    (h : okScalar F.lastSync = true) :
    fieldScalar (dumpSync F) "lastSync" = F.lastSync := by
  unfold dumpSync
  rw [fieldScalar_skip_scalLine "lastSync" "issueKey" _ _
      (by decide) (by decide) (by decide),
    fieldScalar_cons_hit, parseScalarToken_scalValue _ h]

theorem fieldScalar_dumpSync_localHash (F : FrontmatterData)
    (h : okScalar F.localHash = true) :
    fieldScalar (dumpSync F) "localHash" = F.localHash := by
  unfold dumpSync
  rw [fieldScalar_skip_scalLine "localHash" "issueKey" _ _
      (by decide) (by decide) (by decide),
    fieldScalar_skip_scalLine "localHash" "lastSync" _ _
      (by decide) (by decide) (by decide),
    fieldScalar_cons_hit, parseScalarToken_scalValue _ h]

theorem fieldScalar_dumpSync_remoteHash (F : FrontmatterData)
    (h : okScalar F.remoteHash = true) :
    fieldScalar (dumpSync F) "remoteHash" = F.remoteHash := by
  unfold dumpSync
  rw [fieldScalar_skip_scalLine "remoteHash" "issueKey" _ _
      (by decide) (by decide) (by decide),
    fieldScalar_skip_scalLine "remoteHash" "lastSync" _ _
      (by decide) (by decide) (by decide),
    fieldScalar_skip_scalLine "remoteHash" "localHash" _ _
      (by decide) (by decide) (by decide),
    fieldScalar_cons_hit, parseScalarToken_scalValue _ h]

theorem loadRaw_dump (F : FrontmatterData) (hF : okFM F = true) :
    loadRawFM (dumpFrontmatter F) = rawOf F := by
  unfold okFM at hF
  simp only [Bool.and_eq_true] at hF
  obtain ⟨⟨⟨⟨⟨⟨⟨⟨⟨⟨h1, h2⟩, h3⟩, h4⟩, h5⟩, h6⟩, h7⟩, h8⟩, h9⟩, h10⟩, h11⟩ := hF
  unfold loadRawFM rawOf
  rw [findSection_dump_standard, findSection_dump_custom, findSection_dump_sync]
  simp only [Option.getD_some]
  congr 1
  · exact fieldScalar_dumpStandard_project F h1
  · exact fieldScalar_dumpStandard_type F h2
  · exact fieldList_dumpStandard_components F
  · exact fieldList_dumpStandard_labels F
  · exact fieldScalar_dumpStandard_status F h3
  · exact fieldScalar_dumpCustom_12401 F h4
  · exact fieldScalar_dumpCustom_12400 F h5
  · exact fieldScalar_dumpCustom_10006 F h6
  · exact fieldScalar_dumpCustom_10000 F h7
  · exact fieldScalar_dumpSync_issueKey F h8
  · exact fieldScalar_dumpSync_lastSync F h9
  · exact fieldScalar_dumpSync_localHash F h10
  · exact fieldScalar_dumpSync_remoteHash F h11

theorem jsOrNull_ok (v : Option String) (h : okScalar v = true) : jsOrNull v = v := by
  cases v with
  | none => rfl
  | some s =>
    unfold okScalar okStr at h
    simp only [Bool.and_eq_true, Bool.not_eq_true', decide_eq_false_iff_not] at h
    show (if s = "" then none else some s) = some s
    rw [if_neg h.1]

theorem jsOrDefault_ok (s d : String) (h : okStr s = true) :
    jsOrDefault (some s) d = s := by
  unfold okStr at h
  simp only [Bool.and_eq_true, Bool.not_eq_true', decide_eq_false_iff_not] at h
  show (if s = "" then d else s) = s
  rw [if_neg h.1]

theorem normalize_rawOf (F : FrontmatterData) (hF : okFM F = true) :
    normalizeFrontmatter (rawOf F) = F := by
  unfold okFM at hF
  simp only [Bool.and_eq_true] at hF
  obtain ⟨⟨⟨⟨⟨⟨⟨⟨⟨⟨h1, h2⟩, h3⟩, h4⟩, h5⟩, h6⟩, h7⟩, h8⟩, h9⟩, h10⟩, h11⟩ := hF
  unfold normalizeFrontmatter rawOf
  cases F
  congr 1 <;> first
    | exact jsOrNull_ok _ (by assumption)
    | exact jsOrDefault_ok _ _ (by assumption)
    | rfl

theorem okScalar_parseScalarToken (v : String) :
    okScalar (parseScalarToken v) = true := by
  unfold parseScalarToken
  by_cases h1 : v = ""
  · rw [if_pos h1]; rfl
  · rw [if_neg h1]
    by_cases h2 : v = "null"
    · rw [if_pos h2]; rfl
    · rw [if_neg h2]
      show okStr v = true
      unfold okStr
      simp [h1, h2]

theorem okScalar_fieldScalar (sec : List String) (name : String) :
    okScalar (fieldScalar sec name) = true := by
  induction sec with
  | nil => rfl
  | cons l rest ih =>
    rw [fieldScalar_cons]
    cases hsp : stripPrefixStr ("  " ++ name ++ ": ") l with
    | some v => exact okScalar_parseScalarToken v
    | none =>
      by_cases hl : l = "  " ++ name ++ ":"
      · rw [if_pos hl]; rfl
      · rw [if_neg hl]; exact ih

theorem okScalar_jsOrNull (v : Option String) (h : okScalar v = true) :
    okScalar (jsOrNull v) = true := by
  cases v with
  | none => rfl
  | some s =>
    show okScalar (if s = "" then none else some s) = true
    by_cases hs : s = ""
    · rw [if_pos hs]; rfl
    · rw [if_neg hs]; exact h

theorem okStr_jsOrDefault (v : Option String) (d : String)
    (hv : okScalar v = true) (hd : okStr d = true) :
    okStr (jsOrDefault v d) = true := by
  cases v with
  | none => exact hd
  | some s =>
    show okStr (if s = "" then d else s) = true
    by_cases hs : s = ""
    · rw [if_pos hs]; exact hd
    · rw [if_neg hs]; exact hv

theorem okFM_normalize_loadRaw (fm : List String) :
    okFM (normalizeFrontmatter (loadRawFM fm)) = true := by
  unfold okFM normalizeFrontmatter loadRawFM
  simp only [Bool.and_eq_true]
  refine ⟨⟨⟨⟨⟨⟨⟨⟨⟨⟨?_, ?_⟩, ?_⟩, ?_⟩, ?_⟩, ?_⟩, ?_⟩, ?_⟩, ?_⟩, ?_⟩, ?_⟩ <;>
    first
      | exact okScalar_jsOrNull _ (okScalar_fieldScalar _ _)
      | exact okStr_jsOrDefault _ _ (okScalar_fieldScalar _ _) (by decide)

theorem dump_no_delim (F : FrontmatterData) :
    ∀ l ∈ dumpFrontmatter F, l ≠ "---" := by
  intro l hl
  unfold dumpFrontmatter at hl
  rcases List.mem_cons.1 hl with rfl | hl
  · decide
  rcases List.mem_append.1 hl with h | hl
  · exact ne_of_indented l _ (dumpStandard_indented F l h) (by decide)
  rcases List.mem_cons.1 hl with rfl | hl
  · decide
  rcases List.mem_append.1 hl with h | hl
  · exact ne_of_indented l _ (dumpCustom_indented F l h) (by decide)
  rcases List.mem_cons.1 hl with rfl | hl
  · decide
  · exact ne_of_indented l _ (dumpSync_indented F l hl) (by decide)

theorem splitFrontmatter_cons (l : String) (rest : List String) :
    splitFrontmatter (l :: rest) =
      if l = "---" then some ([], rest)
      else
        match splitFrontmatter rest with
        | some (a, b) => some (l :: a, b)
        | none => none := rfl

theorem splitFrontmatter_append (A B : List String)
    (h : ∀ l ∈ A, l ≠ "---") :
    splitFrontmatter (A ++ ("---" :: B)) = some (A, B) := by
  induction A with
  | nil => simp [splitFrontmatter_cons]
  | cons a t ih =>
    rw [List.cons_append, splitFrontmatter_cons, if_neg (h a (by simp)),
      ih (fun l hl => h l (by simp [hl]))]

theorem yamlNullDoc_dump (F : FrontmatterData) :
    yamlNullDoc (dumpFrontmatter F) = false := by
  unfold yamlNullDoc dumpFrontmatter
  rw [List.filter_cons, if_pos (by decide)]
  cases (dumpStandard F ++ ("custom:" :: (dumpCustom F ++ ("sync:" :: dumpSync F)))).filter
      isSignificantLine with
  | nil => decide
  | cons x t => rfl

theorem parseContent_inv (lines : List String) (p : ParsedMarkdown)
    (h : parseContent lines = some p) :
    ∃ fm body, splitFrontmatter lines.tail = some (fm, body) ∧
      yamlNullDoc fm = false ∧
      p = ⟨normalizeFrontmatter (loadRawFM fm), body⟩ := by
  unfold parseContent at h
  split at h
  · cases h
  · split at h
    · cases h
    · rename_i l0 rest
      split at h
      · cases h
      · split at h
        · cases h
        · rename_i fm body heq
          split at h
          · cases h
          · rename_i hnull
            refine ⟨fm, body, ?_, by simpa using hnull, ?_⟩
            · simpa using heq
            · exact (Option.some.inj h).symm

theorem parseContent_cons (l0 : String) (rest : List String)
    (hlen : ¬ (l0 :: rest).length < 2) :
    parseContent (l0 :: rest) =
      if l0 ≠ "---" then none
      else
        match splitFrontmatter rest with
        | none => none
        | some (fmLines, contentLines) =>
          if yamlNullDoc fmLines then none
          else some ⟨normalizeFrontmatter (loadRawFM fmLines), contentLines⟩ := by
  unfold parseContent
  rw [if_neg hlen]

/-! ## Claim C4: the frontmatter round-trip -/

/-- C4 amended: for every document the parser accepts, re-parsing its
serialization reproduces the metadata exactly (field-by-field), but the
body gains one leading empty line — `serialize` writes a blank separator
line after the closing delimiter which `parseContent` attributes to the
body. -/
theorem parse_serialize_roundtrip (d : List String) (p : ParsedMarkdown)
    (h : parseContent d = some p) :
    parseContent (serialize p) = some ⟨p.frontmatter, "" :: p.content⟩ := by
  obtain ⟨fm, body, hsp, hnull, hp⟩ := parseContent_inv d p h
  have hok : okFM p.frontmatter = true := by
    rw [hp]
    exact okFM_normalize_loadRaw fm
  rw [show serialize p =
      "---" :: (dumpFrontmatter p.frontmatter ++ ("---" :: "" :: p.content)) from rfl]
  rw [parseContent_cons _ _ (by simp [dumpFrontmatter])]
  rw [if_neg (by simp)]
  rw [splitFrontmatter_append _ _ (dump_no_delim p.frontmatter)]
  show (if yamlNullDoc (dumpFrontmatter p.frontmatter) then none
        else some (ParsedMarkdown.mk
          (normalizeFrontmatter (loadRawFM (dumpFrontmatter p.frontmatter)))
          ("" :: p.content))) =
      some (ParsedMarkdown.mk p.frontmatter ("" :: p.content))
  rw [if_neg (by simp [yamlNullDoc_dump]), loadRaw_dump _ hok, normalize_rawOf _ hok]

/-- Witness for `parse_serialize_roundtrip` at a concrete document. -/
theorem parse_serialize_roundtrip_witness :
    parseContent (serialize
      ⟨⟨none, "Epic", [], [], none, "IaC", "Private Cloud 2.0", "0", none,
        none, none, none, none⟩, ["body"]⟩) =
      some ⟨⟨none, "Epic", [], [], none, "IaC", "Private Cloud 2.0", "0", none,
             none, none, none, none⟩, ["", "body"]⟩ :=
  parse_serialize_roundtrip ["---", "standard:", "  type: Epic", "---", "body"]
    ⟨⟨none, "Epic", [], [], none, "IaC", "Private Cloud 2.0", "0", none,
      none, none, none, none⟩, ["body"]⟩ (by decide)

/-- C4 counterexample: on the document
`---` / `standard:` / `  type: Epic` / `---` / `body`, the round trip does
not reproduce the parse — the reparsed body is `"" :: ["body"]`, one empty
line longer than the original body `["body"]`. -/
theorem parse_serialize_not_identity :
    parseContent ["---", "standard:", "  type: Epic", "---", "body"] =
      some ⟨⟨none, "Epic", [], [], none, "IaC", "Private Cloud 2.0", "0", none,
             none, none, none, none⟩, ["body"]⟩
    ∧ (parseContent ["---", "standard:", "  type: Epic", "---", "body"]).bind
        (fun p => parseContent (serialize p)) ≠
      parseContent ["---", "standard:", "  type: Epic", "---", "body"] := by
  refine ⟨by decide, by decide⟩

/-! ## Claim C5: when parsing succeeds -/

theorem splitFrontmatter_eq_none_iff (l : List String) :
    splitFrontmatter l = none ↔ "---" ∉ l := by
  induction l with
  | nil => simp [splitFrontmatter]
  | cons a t ih =>
    rw [splitFrontmatter_cons]
    by_cases ha : a = "---"
    · subst ha
      simp
    · rw [if_neg ha]
      cases hsp : splitFrontmatter t with
      | none =>
        simp only [List.mem_cons]
        constructor
        · intro _
          rintro (h | h)
          · exact ha h.symm
          · exact (ih.1 hsp) h
        · intro _
          trivial
      | some ab =>
        obtain ⟨a1, b1⟩ := ab
        constructor
        · intro hcon
          cases hcon
        · intro hnm
          exfalso
          have hnt : "---" ∉ t := fun hmem => hnm (List.mem_cons.2 (Or.inr hmem))
          rw [ih.2 hnt] at hsp
          cases hsp

/-- C5 amended: the failure direction of the claim holds — an input whose
opening delimiter line is absent or that contains no second delimiter line
always fails, since those checks precede any decoding — but delimiters alone
do not guarantee success: the metadata block must additionally decode to a
YAML object (an empty/null block, or one `yaml.load` rejects, still fails).
For documents whose metadata block has the record shape the codec itself
emits, parsing succeeds and returns the metadata and the remaining body. -/
theorem parse_rejects_missing_delimiters (lines : List String)
    (F : FrontmatterData) (body : List String) :
    ((lines.length < 2 ∨ lines.head? ≠ some "---" ∨ "---" ∉ lines.tail) →
      parseContent lines = none)
    ∧ (okFM F = true →
        parseContent ("---" :: (dumpFrontmatter F ++ ("---" :: body))) =
          some ⟨F, body⟩) := by
  constructor
  · intro h
    by_cases hlen : lines.length < 2
    · unfold parseContent
      rw [if_pos hlen]
    · cases lines with
      | nil => exact absurd (by simp) hlen
      | cons l0 rest =>
        rw [parseContent_cons _ _ hlen]
        rcases h with hl | hh | hm
        · exact absurd hl hlen
        · have hne : l0 ≠ "---" := fun he => hh (by rw [he]; rfl)
          rw [if_pos hne]
        · have hnone : splitFrontmatter rest = none :=
            (splitFrontmatter_eq_none_iff rest).2 (by simpa using hm)
          by_cases hl0 : l0 ≠ "---"
          · rw [if_pos hl0]
          · rw [if_neg hl0, hnone]
  · intro hok
    rw [parseContent_cons _ _ (by simp [dumpFrontmatter])]
    rw [if_neg (by simp)]
    rw [splitFrontmatter_append _ _ (dump_no_delim F)]
    show (if yamlNullDoc (dumpFrontmatter F) then none
          else some (ParsedMarkdown.mk
            (normalizeFrontmatter (loadRawFM (dumpFrontmatter F))) body)) =
        some (ParsedMarkdown.mk F body)
    rw [if_neg (by simp [yamlNullDoc_dump]), loadRaw_dump _ hok, normalize_rawOf _ hok]

/-- Witness for `parse_rejects_missing_delimiters`: a document with no
delimiters fails, and a document whose metadata block is a dumped record
parses to that record and its body. -/
theorem parse_rejects_missing_delimiters_witness :
    parseContent ["no frontmatter", "just text"] = none
    ∧ parseContent ("---" ::
        (dumpFrontmatter ⟨none, "Epic", [], [], none, "IaC", "Private Cloud 2.0",
          "0", none, none, none, none, none⟩ ++ ("---" :: ["body"]))) =
      some ⟨⟨none, "Epic", [], [], none, "IaC", "Private Cloud 2.0", "0", none,
             none, none, none, none⟩, ["body"]⟩ :=
  ⟨(parse_rejects_missing_delimiters ["no frontmatter", "just text"]
      ⟨none, "Epic", [], [], none, "IaC", "Private Cloud 2.0", "0", none,
       none, none, none, none⟩ ["body"]).1 (Or.inr (Or.inl (by decide))),
   (parse_rejects_missing_delimiters ["no frontmatter", "just text"]
      ⟨none, "Epic", [], [], none, "IaC", "Private Cloud 2.0", "0", none,
       none, none, none, none⟩ ["body"]).2 (by decide)⟩

/-- C5 counterexample: the two-line document `---` / `---` begins with a
delimiter line and contains a second matching delimiter line, yet parsing
fails — the metadata block is empty, `yaml.load` returns `undefined`, and
`normalizeFrontmatter` throws before any data is produced. -/
theorem parse_fails_on_empty_metadata :
    (["---", "---"] : List String).head? = some "---"
    ∧ "---" ∈ (["---", "---"] : List String).tail
    ∧ parseContent ["---", "---"] = none := by
  refine ⟨by decide, by decide, by decide⟩
